import Mathlib

/-!
Verification development for the KOZO Policy Service (services/policy).

The Rust sources are shallowly embedded: machine integers become `Nat` with
explicit saturation or wrap where the source uses them, byte strings become
`List Nat`, the fixed-size arrays of the grant database become lists that
carry the same bounds checks as the source, and the kernel syscall layer is
represented by an oracle function together with an explicit trace of the
kernel operations a code path issues.

External inputs of the service are explicit parameters:
- the kernel clock value read by `update_time` (the in-repo stub
  `get_timestamp` only contains a TODO returning 0);
- the kernel syscall results used by the delegation module;
- the hardware-presence attestation bit read (and then ignored) by
  `require_hardware_presence`.
-/

namespace Kozo

set_option maxRecDepth 65536

/-! ## Byte-string literals used by the Rust sources (UTF-8 bytes) -/

/-- Byte list for the string literal "camera.use". -/
def bCameraUse : List Nat := [99, 97, 109, 101, 114, 97, 46, 117, 115, 101]

/-- Byte list for the string literal "camera.record". -/
def bCameraRecord : List Nat := [99, 97, 109, 101, 114, 97, 46, 114, 101, 99, 111, 114, 100]

/-- Byte list for the string literal "network.outbound". -/
def bNetworkOutbound : List Nat := [110, 101, 116, 119, 111, 114, 107, 46, 111, 117, 116, 98, 111, 117, 110, 100]

/-- Byte list for the string literal "network.local". -/
def bNetworkLocal : List Nat := [110, 101, 116, 119, 111, 114, 107, 46, 108, 111, 99, 97, 108]

/-- Byte list for the string literal "network.inbound". -/
def bNetworkInbound : List Nat := [110, 101, 116, 119, 111, 114, 107, 46, 105, 110, 98, 111, 117, 110, 100]

/-- Byte list for the string literal "files.home.read". -/
def bFilesHomeRead : List Nat := [102, 105, 108, 101, 115, 46, 104, 111, 109, 101, 46, 114, 101, 97, 100]

/-- Byte list for the string literal "files.home.write". -/
def bFilesHomeWrite : List Nat := [102, 105, 108, 101, 115, 46, 104, 111, 109, 101, 46, 119, 114, 105, 116, 101]

/-- Byte list for the string literal "files.system.read". -/
def bFilesSystemRead : List Nat := [102, 105, 108, 101, 115, 46, 115, 121, 115, 116, 101, 109, 46, 114, 101, 97, 100]

/-- Byte list for the string literal "files.system.write". -/
def bFilesSystemWrite : List Nat := [102, 105, 108, 101, 115, 46, 115, 121, 115, 116, 101, 109, 46, 119, 114, 105, 116, 101]

/-- Byte list for the string literal "process.spawn". -/
def bProcessSpawn : List Nat := [112, 114, 111, 99, 101, 115, 115, 46, 115, 112, 97, 119, 110]

/-- Byte list for the string literal "process.signal". -/
def bProcessSignal : List Nat := [112, 114, 111, 99, 101, 115, 115, 46, 115, 105, 103, 110, 97, 108]

/-- Byte list for the string literal "audio.in". -/
def bAudioIn : List Nat := [97, 117, 100, 105, 111, 46, 105, 110]

/-- Byte list for the string literal "audio.out". -/
def bAudioOut : List Nat := [97, 117, 100, 105, 111, 46, 111, 117, 116]

/-- Byte list for the string literal "graphics.render". -/
def bGraphicsRender : List Nat := [103, 114, 97, 112, 104, 105, 99, 115, 46, 114, 101, 110, 100, 101, 114]

/-- Byte list for the string literal "gpu.compute". -/
def bGpuCompute : List Nat := [103, 112, 117, 46, 99, 111, 109, 112, 117, 116, 101]

/-- Byte list for the string literal "system.". -/
def pSystemDot : List Nat := [115, 121, 115, 116, 101, 109, 46]

/-- Byte list for the string literal "disk.". -/
def pDiskDot : List Nat := [100, 105, 115, 107, 46]

/-- Byte list for the string literal "admin.". -/
def pAdminDot : List Nat := [97, 100, 109, 105, 110, 46]

/-- Byte list for the string literal "restore". -/
def pRestore : List Nat := [114, 101, 115, 116, 111, 114, 101]

/-- Byte list for the string literal "configure". -/
def pConfigure : List Nat := [99, 111, 110, 102, 105, 103, 117, 114, 101]

/-- Byte list for the string literal "camera.". -/
def pCameraDot : List Nat := [99, 97, 109, 101, 114, 97, 46]

/-- Byte list for the string literal "microphone.". -/
def pMicrophoneDot : List Nat := [109, 105, 99, 114, 111, 112, 104, 111, 110, 101, 46]

/-- Byte list for the string literal "location.". -/
def pLocationDot : List Nat := [108, 111, 99, 97, 116, 105, 111, 110, 46]

/-- Byte list for the string literal "biometric.". -/
def pBiometricDot : List Nat := [98, 105, 111, 109, 101, 116, 114, 105, 99, 46]

/-- Byte list for the string literal "network.". -/
def pNetworkDot : List Nat := [110, 101, 116, 119, 111, 114, 107, 46]

/-- Byte list for the string literal "local". -/
def pLocal : List Nat := [108, 111, 99, 97, 108]

/-- Byte list for the string literal "lan". -/
def pLan : List Nat := [108, 97, 110]

/-- Byte list for the string literal "files.". -/
def pFilesDot : List Nat := [102, 105, 108, 101, 115, 46]

/-- Byte list for the string literal "system". -/
def pSystem : List Nat := [115, 121, 115, 116, 101, 109]

/-- Byte list for the string literal "etc". -/
def pEtc : List Nat := [101, 116, 99]

/-- Byte list for the string literal "home". -/
def pHome : List Nat := [104, 111, 109, 101]

/-- Byte list for the string literal "documents". -/
def pDocuments : List Nat := [100, 111, 99, 117, 109, 101, 110, 116, 115]

/-- Byte list for the string literal "download". -/
def pDownload : List Nat := [100, 111, 119, 110, 108, 111, 97, 100]

/-- Byte list for the string literal "temp". -/
def pTemp : List Nat := [116, 101, 109, 112]

/-- Byte list for the string literal "process.". -/
def pProcessDot : List Nat := [112, 114, 111, 99, 101, 115, 115, 46]

/-- Byte list for the string literal "kill". -/
def pKill : List Nat := [107, 105, 108, 108]

/-- Byte list for the string literal "debug". -/
def pDebug : List Nat := [100, 101, 98, 117, 103]

/-- Byte list for the string literal "graphics.". -/
def pGraphicsDot : List Nat := [103, 114, 97, 112, 104, 105, 99, 115, 46]

/-- Byte list for the string literal "gpu.". -/
def pGpuDot : List Nat := [103, 112, 117, 46]

/-- Byte list for the string literal ".write". -/
def pDotWrite : List Nat := [46, 119, 114, 105, 116, 101]

/-- Byte list for the string literal ".use". -/
def pDotUse : List Nat := [46, 117, 115, 101]

/-- Byte list for the string literal ".grant". -/
def pDotGrantR : List Nat := [46, 103, 114, 97, 110, 116]

/-- Byte list for the string literal ".map". -/
def pDotMapR : List Nat := [46, 109, 97, 112]

/-- Byte list for the string literal "system.restore". -/
def bSystemRestore : List Nat := [115, 121, 115, 116, 101, 109, 46, 114, 101, 115, 116, 111, 114, 101]

/-- Byte list for the string literal "foo.bar". -/
def bFooBar : List Nat := [102, 111, 111, 46, 98, 97, 114]

/-- Byte list for the string literal "a.b". -/
def bAB : List Nat := [97, 46, 98]

/-- Byte list for the string literal "a.bc". -/
def bABC : List Nat := [97, 46, 98, 99]

/-! ## Byte-string helpers (Rust str::starts_with and str::contains) -/

/-- Boolean test that `pat` is a prefix of `l`; models Rust `str::starts_with`
(byte-wise, which agrees with the character-wise test on UTF-8 data). -/
def listStarts (pat l : List Nat) : Bool :=
  match pat, l with
  | [], _ => true
  | _ :: _, [] => false
  | a :: as_, b :: bs => a == b && listStarts as_ bs

/-- Boolean test that `pat` occurs as a contiguous sublist of `l`; models Rust
`str::contains` for a literal pattern. -/
def listHas (pat l : List Nat) : Bool :=
  match l with
  | [] => listStarts pat []
  | _ :: rest => listStarts pat l || listHas pat rest

/-! ## u64 arithmetic helpers -/

/-- One past the largest u64 value. -/
def U64LIM : Nat := 2 ^ 64

/-- u64 saturating addition (`u64::saturating_add`), for operands below `U64LIM`. -/
def satAdd (a b : Nat) : Nat := min (a + b) (U64LIM - 1)

/-! ## Data model (services/policy/src/db.rs) -/

/-- Policy entry with expiration; embeds `struct Grant` of db.rs.
`cap_name` is the canonical 32-byte null-padded buffer. `expires_at = 0`
means permanent in the source. -/
structure Grant where
  cap_name : List Nat
  granted_at : Nat
  expires_at : Nat
  active : Bool
  deriving DecidableEq, Repr

/-- Embeds `struct AppEntry` of db.rs. The Rust field is a 32-slot array
with `grant_count`; every loop in the source reads only
`grants[0..grant_count]`, which is what the list holds. -/
structure AppEntry where
  app_id : Nat
  grants : List Grant
  deriving DecidableEq, Repr

/-- Audit actions, from db.rs. -/
inductive AuditAction where
  | Grant
  | Revoke
  | Deny
  | Query
  deriving DecidableEq, Repr

/-- Embeds `struct AuditEvent` of db.rs. -/
structure AuditEvent where
  timestamp : Nat
  app_id : Nat
  action : AuditAction
  cap_name : List Nat
  success : Bool
  deriving DecidableEq, Repr

/-- Embeds `struct PolicyDB` of db.rs: a 128-slot sparse app array, the
current kernel timestamp, and a 64-entry circular audit buffer. -/
structure PolicyDB where
  apps : List (Option AppEntry)
  current_time : Nat
  audit_log : List AuditEvent
  audit_head : Nat
  deriving DecidableEq, Repr

/-- MAX_GRANTS_PER_APP in db.rs. -/
def MAX_GRANTS_PER_APP : Nat := 32

/-- MAX_APPS in db.rs. -/
def MAX_APPS : Nat := 128

/-- The all-zero audit event used to initialize the ring buffer. -/
def blankAuditEvent : AuditEvent :=
  ⟨0, 0, AuditAction.Query, List.replicate 32 0, false⟩

/-- Embeds `PolicyDB::new` (the `Ok` payload; the constructor cannot fail). -/
def PolicyDB.new : PolicyDB :=
  ⟨List.replicate MAX_APPS none, 0, List.replicate 64 blankAuditEvent, 0⟩

/-- Error codes of the kernel ABI as used by the Policy Service
(kernel wire codes -1, -2, -3, -4). -/
inductive Error where
  | Invalid
  | NoCap
  | NoMem
  | AccessDenied
  deriving DecidableEq, Repr

/-- Canonical 32-byte null-padded form of a queried name, as built by
`PolicyDB::grant` and `PolicyDB::audit`: the first `min (length) 31` bytes
are copied and the rest of the 32-byte buffer stays zero. -/
def canon (q : List Nat) : List Nat :=
  q.take 31 ++ List.replicate (32 - min q.length 31) 0

/-- Embeds `PolicyDB::cap_match`. The source contains an `if` with an empty
body (a dead quick-reject comment); the returned value is
`stored[0..len] == query[0..len] && (stored[len] == 0 || len == 31)`
with `len = min query.len() 31`. -/
def capMatch (stored query : List Nat) : Bool :=
  let len := min query.length 31
  decide (stored.take len = query.take len) &&
    (decide (stored.getD len 0 = 0) || decide (len = 31))

/-- Embeds `PolicyDB::find_app`: the first populated slot whose id matches. -/
def findApp : List (Option AppEntry) → Nat → Option AppEntry
  | [], _ => none
  | none :: rest, app => findApp rest app
  | some e :: rest, app => if e.app_id = app then some e else findApp rest app

/-- Replace the grant list of the first entry whose id matches; this is how
`PolicyDB::grant` and `PolicyDB::revoke` write back through the slot index
found by `find_app_index`. -/
def setAppGrants : List (Option AppEntry) → Nat → List Grant → List (Option AppEntry)
  | [], _, _ => []
  | none :: rest, app, gs => none :: setAppGrants rest app gs
  | some e :: rest, app, gs =>
      if e.app_id = app then some { e with grants := gs } :: rest
      else some e :: setAppGrants rest app gs

/-- The creation half of `PolicyDB::find_or_create_app`: place a fresh entry
in the first free slot, or fail (`NoMem`) when every slot is taken. -/
def createApp : List (Option AppEntry) → AppEntry → Option (List (Option AppEntry))
  | [], _ => none
  | none :: rest, e => some (some e :: rest)
  | some x :: rest, e =>
      match createApp rest e with
      | none => none
      | some rest2 => some (some x :: rest2)

/-- Embeds `PolicyDB::update_time`.
Modelled from the spec: `now` is refreshed from the kernel clock at the start
of each query; the kernel clock syscall is outside this repository (the
in-repo `get_timestamp` stub only contains a TODO and returns 0), so the
fresh kernel timestamp is passed in as the explicit parameter `t`. -/
def update_time (db : PolicyDB) (t : Nat) : PolicyDB :=
  { db with current_time := t }

/-- Embeds `PolicyDB::audit`: write the event at `audit_head`, then advance
the head modulo the buffer length. -/
def audit (db : PolicyDB) (app : Nat) (action : AuditAction) (cap : List Nat)
    (success : Bool) : PolicyDB :=
  { db with
    audit_log := db.audit_log.set db.audit_head
      ⟨db.current_time, app, action, canon cap, success⟩
    audit_head := (db.audit_head + 1) % db.audit_log.length }

/-- Result of the grant-scanning loop inside `PolicyDB::is_granted`. -/
inductive LookupRes where
  | valid
  | expired
  | missing
  deriving DecidableEq, Repr

/-- The loop of `PolicyDB::is_granted`: skip inactive grants; at the first
active grant whose name matches, decide validity by expiry
(`expires_at == 0` is permanent); otherwise keep scanning. -/
def lookupLoop : List Grant → List Nat → Nat → LookupRes
  | [], _, _ => LookupRes.missing
  | g :: gs, q, now =>
      if g.active = false then lookupLoop gs q now
      else if capMatch g.cap_name q then
        (if g.expires_at = 0 ∨ now < g.expires_at then LookupRes.valid
         else LookupRes.expired)
      else lookupLoop gs q now

/-- Embeds `PolicyDB::is_granted`. The Rust function returns
`Result<bool, Error>` but never returns `Err`; the pair holds the updated
database (time refresh plus audit writes) and the boolean answer. The time
refresh sets `current_time` to `t`, so the loop compares against `t`. -/
def is_granted (db : PolicyDB) (t : Nat) (app : Nat) (cap : List Nat) :
    PolicyDB × Bool :=
  match findApp db.apps app with
  | none => (audit (update_time db t) app AuditAction.Query cap true, false)
  | some entry =>
      match lookupLoop entry.grants cap t with
      | LookupRes.valid =>
          (audit (update_time db t) app AuditAction.Query cap true, true)
      | LookupRes.expired =>
          (audit (audit (update_time db t) app AuditAction.Query cap true)
            app AuditAction.Query cap false, false)
      | LookupRes.missing =>
          (audit (update_time db t) app AuditAction.Query cap true, false)

/-- The update loop of `PolicyDB::grant`: refresh the first grant whose name
matches (new expiry, re-activated), or report that none matches. -/
def updateExisting : List Grant → List Nat → Nat → Option (List Grant)
  | [], _, _ => none
  | g :: gs, q, e =>
      if capMatch g.cap_name q then
        some ({ g with expires_at := e, active := true } :: gs)
      else
        match updateExisting gs q e with
        | none => none
        | some gs2 => some (g :: gs2)

/-- The expiry computed by `PolicyDB::grant` after the time refresh:
`duration_secs = none` means permanent (`expires_at = 0`); otherwise the
refreshed time plus the duration converted to milliseconds, exactly as
`self.current_time.saturating_add(secs * 1000)` with u64 wrapping
multiplication. -/
def grantExpires (t : Nat) (duration_secs : Option Nat) : Nat :=
  match duration_secs with
  | none => 0
  | some secs => satAdd t (secs * 1000 % U64LIM)

/-- Embeds `PolicyDB::grant`. The branch structure inlines
`find_or_create_app` (lookup first, then first free slot, else NoMem):
an existing grant with a matching name is refreshed and re-activated,
otherwise a new canonical grant is appended subject to the per-app bound. -/
def grant (db : PolicyDB) (t : Nat) (app : Nat) (cap : List Nat)
    (duration_secs : Option Nat) : PolicyDB × Option Error :=
  match findApp db.apps app with
  | some entry =>
      match updateExisting entry.grants cap (grantExpires t duration_secs) with
      | some gs2 =>
          (audit { update_time db t with apps := setAppGrants db.apps app gs2 }
            app AuditAction.Grant cap true, none)
      | none =>
          if MAX_GRANTS_PER_APP ≤ entry.grants.length then
            (update_time db t, some Error.NoMem)
          else
            (audit
              { update_time db t with
                apps := setAppGrants db.apps app
                  (entry.grants ++ [⟨canon cap, t, grantExpires t duration_secs, true⟩]) }
              app AuditAction.Grant cap true, none)
  | none =>
      match createApp db.apps ⟨app, [⟨canon cap, t, grantExpires t duration_secs, true⟩]⟩ with
      | none => (update_time db t, some Error.NoMem)
      | some apps2 =>
          (audit { update_time db t with apps := apps2 } app AuditAction.Grant cap true, none)

/-- The loop of `PolicyDB::revoke`: deactivate the first active grant whose
name matches, or report that none was live. -/
def tombstoneFirst : List Grant → List Nat → Option (List Grant)
  | [], _ => none
  | g :: gs, q =>
      if g.active = true ∧ capMatch g.cap_name q = true then
        some ({ g with active := false } :: gs)
      else
        match tombstoneFirst gs q with
        | none => none
        | some gs2 => some (g :: gs2)

/-- Embeds `PolicyDB::revoke`. The Rust function always returns `Ok(())`;
a `Revoke` audit event is written exactly when a live grant was found. -/
def revoke (db : PolicyDB) (t : Nat) (app : Nat) (cap : List Nat) : PolicyDB :=
  match findApp db.apps app with
  | none => update_time db t
  | some entry =>
      match tombstoneFirst entry.grants cap with
      | none => update_time db t
      | some gs2 =>
          audit { update_time db t with apps := setAppGrants db.apps app gs2 }
            app AuditAction.Revoke cap true

/-- The loop of `PolicyDB::is_expired`: the first grant whose name matches
decides (inactive is expired, `expires_at = 0` is permanent, otherwise
compare against the clock); no match means expired. -/
def expiredLoop : List Grant → List Nat → Nat → Option Bool
  | [], _, _ => none
  | g :: gs, q, now =>
      if capMatch g.cap_name q then
        some (if g.active = false then true
              else if g.expires_at = 0 then false
              else decide (g.expires_at ≤ now))
      else expiredLoop gs q now

/-- Embeds `PolicyDB::is_expired`. -/
def is_expired (db : PolicyDB) (t : Nat) (app : Nat) (cap : List Nat) :
    PolicyDB × Bool :=
  match findApp db.apps app with
  | none => (update_time db t, true)
  | some entry =>
      match expiredLoop entry.grants cap t with
      | none => (update_time db t, true)
      | some b => (update_time db t, b)

/-- Embeds `PolicyDB::log_denial`: a `Deny` audit event with success = false
(no time refresh in the source). -/
def log_denial (db : PolicyDB) (app : Nat) (cap : List Nat) : PolicyDB :=
  audit db app AuditAction.Deny cap false

/-- Embeds `PolicyDB::get_recent_events`: the returned slice is
`audit_log[start..]` with `start = len - count` (or 0 when `count > len`);
the value of `audit_head` is not consulted. -/
def get_recent_events (db : PolicyDB) (count : Nat) : List AuditEvent :=
  let start := if db.audit_log.length < count then 0 else db.audit_log.length - count
  db.audit_log.drop start

/-! ## Risk classifier (services/policy/src/ui.rs) -/

/-- Risk levels, from ui.rs. -/
inductive RiskLevel where
  | Low
  | Medium
  | High
  | Critical
  deriving DecidableEq, Repr

/-- Embeds `RiskLevel::default_duration` (seconds; Critical is 0). -/
def RiskLevel.default_duration : RiskLevel → Nat
  | RiskLevel.Low => 3600
  | RiskLevel.Medium => 300
  | RiskLevel.High => 60
  | RiskLevel.Critical => 0

/-- Embeds `assess_risk` of ui.rs: the prefix and substring tests in source
order, first match wins, default Medium. -/
def assess_risk (cap : List Nat) : RiskLevel :=
  if listStarts pSystemDot cap || listStarts pDiskDot cap || listStarts pAdminDot cap
      || listHas pRestore cap || listHas pConfigure cap then
    RiskLevel.Critical
  else if listStarts pCameraDot cap || listStarts pMicrophoneDot cap
      || listStarts pLocationDot cap || listStarts pBiometricDot cap then
    RiskLevel.High
  else if listStarts pNetworkDot cap then
    (if listHas pLocal cap || listHas pLan cap then RiskLevel.High else RiskLevel.Medium)
  else if listStarts pFilesDot cap then
    (if listHas pSystem cap || listHas pEtc cap then RiskLevel.High
     else if listHas pHome cap || listHas pDocuments cap then RiskLevel.Medium
     else if listHas pDownload cap || listHas pTemp cap then RiskLevel.Low
     else RiskLevel.Medium)
  else if listStarts pProcessDot cap then
    (if listHas pKill cap || listHas pDebug cap then RiskLevel.High else RiskLevel.Medium)
  else if listStarts pGraphicsDot cap || listStarts pGpuDot cap then
    RiskLevel.Medium
  else if listStarts bAudioOut cap then
    RiskLevel.Low
  else if listStarts bAudioIn cap then
    RiskLevel.High
  else
    RiskLevel.Medium

/-- Embeds `trigger_secure_prompt` of ui.rs. The genesis implementation
prints the prompt and returns true (auto-approval) for every risk level;
the compositor IPC of the production design does not exist in the source. -/
def trigger_secure_prompt (app : Nat) (cap : List Nat) (risk : RiskLevel) : Bool :=
  true

/-- Embeds `require_hardware_presence` of ui.rs. The genesis implementation
issues the HardwareAttest syscall, discards its result (`_ = result`) and
returns true unconditionally. The attestation bit delivered by the kernel is
the parameter; the body ignores it exactly as the source does. -/
def require_hardware_presence (attestPresent : Bool) : Bool :=
  true

/-! ## Delegation (services/policy/src/delegation.rs) -/

/-- System capability slots of the Policy Service CNode, from delegation.rs. -/
def SYSTEM_CAMERA_CAP : Nat := 10

/-- Slot for the network.outbound master capability. -/
def SYSTEM_NET_OUTBOUND_CAP : Nat := 11

/-- Slot for the network.local master capability. -/
def SYSTEM_NET_LOCAL_CAP : Nat := 12

/-- Slot for the files.home master capability. -/
def SYSTEM_FS_HOME_CAP : Nat := 20

/-- Slot for the files.system master capability. -/
def SYSTEM_FS_SYSTEM_CAP : Nat := 21

/-- Slot for the process.spawn master capability. -/
def SYSTEM_PROCESS_SPAWN_CAP : Nat := 30

/-- Slot for the process.signal master capability. -/
def SYSTEM_PROCESS_SIGNAL_CAP : Nat := 31

/-- Slot for the audio.out master capability. -/
def SYSTEM_AUDIO_OUT_CAP : Nat := 40

/-- Slot for the audio.in master capability. -/
def SYSTEM_AUDIO_IN_CAP : Nat := 41

/-- Slot for the graphics master capability. -/
def SYSTEM_GPU_RENDER_CAP : Nat := 50

/-- APP_DELEGATION_SLOT of delegation.rs: the fixed destination slot in app
CNodes for delegated capabilities. -/
def APP_DELEGATION_SLOT : Nat := 5

/-- Capability rights as a set of flags. The numeric flag values live in the
generated `abi.rs`, which is not part of the repository; only the set
structure is observable from the sources embedded here. -/
structure Rights where
  canRead : Bool
  canWrite : Bool
  canGrant : Bool
  canMap : Bool
  deriving DecidableEq, Repr

/-- Embeds `calculate_attenuated_rights` of delegation.rs. -/
def calculate_attenuated_rights (cap : List Nat) : Rights :=
  if listHas pDotWrite cap || listHas pDotUse cap then
    ⟨true, true, false, false⟩
  else if listHas pDotGrantR cap then
    ⟨true, true, true, false⟩
  else if listHas pDotMapR cap then
    ⟨true, false, false, true⟩
  else
    ⟨true, false, false, false⟩

/-- Embeds `is_path_scoped` of delegation.rs. -/
def is_path_scoped (cap : List Nat) : Bool :=
  listStarts pFilesDot cap

/-- Embeds `extract_path` of delegation.rs (result strings as byte lists). -/
def extract_path (cap : List Nat) : List Nat :=
  if listHas pHome cap then [47, 104, 111, 109, 101, 47, 117, 115, 101, 114]
  else if listHas pSystem cap then [47, 101, 116, 99]
  else if listHas pTemp cap then [47, 116, 109, 112]
  else [47]

/-- Embeds `Error::from_raw` of delegation.rs. -/
def errorFromRaw (v : Int) : Error :=
  if v = -1 then Error.Invalid
  else if v = -2 then Error.NoCap
  else if v = -3 then Error.NoMem
  else if v = -4 then Error.AccessDenied
  else Error.Invalid

/-- Embeds `resolve_system_capability` of delegation.rs: the literal match
over Clear-Names, with the two policy rejections and `Invalid` for unknown
names. -/
def resolve_system_capability (cap : List Nat) : Except Error Nat :=
  if cap = bCameraUse then Except.ok SYSTEM_CAMERA_CAP
  else if cap = bCameraRecord then Except.ok SYSTEM_CAMERA_CAP
  else if cap = bNetworkOutbound then Except.ok SYSTEM_NET_OUTBOUND_CAP
  else if cap = bNetworkLocal then Except.ok SYSTEM_NET_LOCAL_CAP
  else if cap = bNetworkInbound then Except.error Error.AccessDenied
  else if cap = bFilesHomeRead then Except.ok SYSTEM_FS_HOME_CAP
  else if cap = bFilesHomeWrite then Except.ok SYSTEM_FS_HOME_CAP
  else if cap = bFilesSystemRead then Except.ok SYSTEM_FS_SYSTEM_CAP
  else if cap = bFilesSystemWrite then Except.error Error.AccessDenied
  else if cap = bProcessSpawn then Except.ok SYSTEM_PROCESS_SPAWN_CAP
  else if cap = bProcessSignal then Except.ok SYSTEM_PROCESS_SIGNAL_CAP
  else if cap = bAudioOut then Except.ok SYSTEM_AUDIO_OUT_CAP
  else if cap = bAudioIn then Except.ok SYSTEM_AUDIO_IN_CAP
  else if cap = bGraphicsRender then Except.ok SYSTEM_GPU_RENDER_CAP
  else if cap = bGpuCompute then Except.ok SYSTEM_GPU_RENDER_CAP
  else Except.error Error.Invalid

/-- Kernel capability operations issued by the delegation module. -/
inductive KernelOp where
  | capTransfer (src : Nat) (destCnode : Nat) (destSlot : Nat) (rights : Rights)
  | capMint (parent : Nat) (rights : Rights) (pathDesc : Nat)
  | capRevoke (destCnode : Nat) (slot : Nat)
  deriving DecidableEq, Repr

/-- Embeds `delegate_capability` of delegation.rs. The kernel is the oracle
`k`, giving each issued operation its raw syscall result; the second
component is the ordered trace of kernel operations the call issued.
Resolution failure short-circuits before any syscall; for `files.*` names a
path-restricted child is minted first and its result (when non-negative) is
the transferred handle; the transfer always targets `APP_DELEGATION_SLOT`
of the CNode identified by the app badge. -/
def delegate_capability (k : KernelOp → Int) (app : Nat) (cap : List Nat) :
    Except Error Unit × List KernelOp :=
  match resolve_system_capability cap with
  | Except.error e => (Except.error e, [])
  | Except.ok src =>
      let rights := calculate_attenuated_rights cap
      if is_path_scoped cap then
        let mintOp := KernelOp.capMint src rights 0
        let mres := k mintOp
        if mres < 0 then (Except.error (errorFromRaw mres), [mintOp])
        else
          let transferOp := KernelOp.capTransfer mres.toNat app APP_DELEGATION_SLOT rights
          let tres := k transferOp
          if tres < 0 then (Except.error (errorFromRaw tres), [mintOp, transferOp])
          else (Except.ok (), [mintOp, transferOp])
      else
        let transferOp := KernelOp.capTransfer src app APP_DELEGATION_SLOT rights
        let tres := k transferOp
        if tres < 0 then (Except.error (errorFromRaw tres), [transferOp])
        else (Except.ok (), [transferOp])

/-- Embeds `revoke_capability` of delegation.rs: one `cap_revoke` on
`APP_DELEGATION_SLOT` of the CNode identified by the badge; a NoCap result
(-2) is treated as success, any other negative result is surfaced. -/
def revoke_capability (k : KernelOp → Int) (app : Nat) (cap : List Nat) :
    Except Error Unit × List KernelOp :=
  let op := KernelOp.capRevoke app APP_DELEGATION_SLOT
  let r := k op
  if r < 0 ∧ r ≠ -2 then (Except.error (errorFromRaw r), [op])
  else (Except.ok (), [op])

/-! ## Request handling (services/policy/src/main.rs) -/

/-- IPC responses of main.rs. -/
inductive Response where
  | Granted
  | Denied
  | Revoked
  | ListResp (data : List Nat)
  | Error (e : Error)
  deriving DecidableEq, Repr

/-- Everything observable about one `handle_capability_request` run: the IPC
response, the final database, the trace of kernel capability operations, and
whether the secure prompt was triggered. -/
structure HandlerRun where
  resp : Response
  db : PolicyDB
  kops : List KernelOp
  promptShown : Bool
  deriving Repr

/-- The `approved` value computed by `handle_capability_request` of main.rs:
for Critical risk, the hardware-presence gate short-circuits the prompt
(Rust `&&`); every other risk goes straight to the prompt. -/
def consent_decision (attestPresent : Bool) (app : Nat) (cap : List Nat)
    (risk : RiskLevel) : Bool :=
  match risk with
  | RiskLevel.Critical =>
      require_hardware_presence attestPresent && trigger_secure_prompt app cap risk
  | _ => trigger_secure_prompt app cap risk

/-- Whether the secure prompt gets triggered: always, except for Critical
risk where a failed hardware-presence gate would short-circuit it. -/
def prompt_shown (attestPresent : Bool) (risk : RiskLevel) : Bool :=
  match risk with
  | RiskLevel.Critical => require_hardware_presence attestPresent
  | _ => true

/-- Embeds `handle_capability_request` of main.rs, for an already extracted
Clear-Name `cap` (the null-terminated string of the 32-byte wire buffer).
Check 1 is the database lookup, check 2 risk assessment plus consent,
check 3 the delegation, with the database grant rolled back by `revoke`
when delegation fails. `t` is the kernel clock value for this request and
`attestPresent` the hardware-presence attestation bit. -/
def handle_capability_request (k : KernelOp → Int) (attestPresent : Bool)
    (t : Nat) (db : PolicyDB) (app : Nat) (cap : List Nat) : HandlerRun :=
  match is_granted db t app cap with
  | (db1, true) =>
      match delegate_capability k app cap with
      | (Except.ok _, ops) => ⟨Response.Granted, db1, ops, false⟩
      | (Except.error e, ops) => ⟨Response.Error e, db1, ops, false⟩
  | (db1, false) =>
      if consent_decision attestPresent app cap (assess_risk cap) then
        match grant db1 t app cap (some (assess_risk cap).default_duration) with
        | (db2, some e) =>
            ⟨Response.Error e, db2, [], prompt_shown attestPresent (assess_risk cap)⟩
        | (db2, none) =>
            match delegate_capability k app cap with
            | (Except.ok _, ops) =>
                ⟨Response.Granted, db2, ops, prompt_shown attestPresent (assess_risk cap)⟩
            | (Except.error e, ops) =>
                ⟨Response.Error e, revoke db2 t app cap, ops,
                  prompt_shown attestPresent (assess_risk cap)⟩
      else
        ⟨Response.Denied, log_denial db1 app cap, [],
          prompt_shown attestPresent (assess_risk cap)⟩

/-! ## Canonical-name and cap_match theory -/

/-- Boolean canonicity test for a stored 32-byte name: it is the canonical
padding of its null-free head. Every name `PolicyDB::grant` stores has this
shape. -/
def isCanonName (l : List Nat) : Bool :=
  decide (l = canon (l.takeWhile (· != 0))) &&
    decide ((l.takeWhile (· != 0)).length ≤ 31)

theorem canon_of_le {q : List Nat} (h : q.length ≤ 31) :
    canon q = q ++ List.replicate (32 - q.length) 0 := by
  have h1 : q.take 31 = q := List.take_of_length_le h
  have h2 : min q.length 31 = q.length := by omega
  simp [canon, h1, h2]

theorem getD_replicate_zero (r n : Nat) :
    (List.replicate r (0 : Nat)).getD n 0 = 0 := by
  induction r generalizing n with
  | zero => simp [List.getD]
  | succ r ih =>
      cases n with
      | zero => simp [List.replicate]
      | succ n => simpa [List.replicate] using ih n

theorem capMatch_self (q : List Nat) : capMatch (canon q) q = true := by
  have hlen : (q.take 31).length = min q.length 31 := by
    simp [List.length_take, Nat.min_comm]
  by_cases h31 : 31 ≤ q.length
  · have hmin : min q.length 31 = 31 := by omega
    have htake : (canon q).take 31 = q.take 31 := by
      rw [canon, List.take_append_eq_append_take]
      simp [hlen, hmin, List.take_take, Nat.min_comm]
    simp only [capMatch, hmin]
    rw [htake]
    simp
  · have hq : q.length ≤ 31 := by omega
    have hmin : min q.length 31 = q.length := by omega
    have htake : (canon q).take q.length = q.take q.length := by
      rw [canon, List.take_append_eq_append_take]
      simp [hlen, hmin, List.take_take, Nat.min_comm]
    have hget : (canon q).getD q.length 0 = 0 := by
      rw [canon_of_le hq, List.getD_append_right q _ 0 q.length (Nat.le_refl _)]
      simpa using getD_replicate_zero (32 - q.length) 0
    simp only [capMatch, hmin]
    rw [htake, hget]
    simp

theorem capMatch_canon_iff {s q : List Nat} (hs0 : 0 ∉ s) (hq0 : 0 ∉ q)
    (hs : s.length ≤ 31) (hq : q.length ≤ 31) :
    capMatch (canon s) q = true ↔ s = q := by
  constructor
  · intro h
    have hmin : min q.length 31 = q.length := by omega
    simp only [capMatch, hmin, Bool.and_eq_true, Bool.or_eq_true,
      decide_eq_true_eq] at h
    obtain ⟨h1, h2⟩ := h
    rw [List.take_length] at h1
    rw [canon_of_le hs] at h1 h2
    by_cases hle : q.length ≤ s.length
    · have htake : (s ++ List.replicate (32 - s.length) 0).take q.length
          = s.take q.length := by
        rw [List.take_append_eq_append_take]
        have : q.length - s.length = 0 := by omega
        simp [this]
      rw [htake] at h1
      rcases Nat.lt_or_ge q.length s.length with hlt | hge
      · exfalso
        have hne31 : q.length ≠ 31 := by omega
        have hget : (s ++ List.replicate (32 - s.length) 0).getD q.length 0
            = s.getD q.length 0 := List.getD_append _ _ _ _ hlt
        rcases h2 with h2 | h2
        · rw [hget, List.getD_eq_getElem s 0 hlt] at h2
          exact hs0 (h2 ▸ List.getElem_mem hlt)
        · exact hne31 h2
      · have heq : q.length = s.length := by omega
        rw [heq, List.take_length] at h1
        exact h1
    · exfalso
      have hlt : s.length < q.length := by omega
      have htake : (s ++ List.replicate (32 - s.length) 0).take q.length
          = s ++ List.replicate (min (q.length - s.length) (32 - s.length)) 0 := by
        rw [List.take_append_eq_append_take, List.take_of_length_le (by omega),
          List.take_replicate]
      rw [htake] at h1
      have hk : 1 ≤ min (q.length - s.length) (32 - s.length) := by omega
      have : (0 : Nat) ∈ q := by
        rw [← h1]
        refine List.mem_append_right _ ?_
        exact List.mem_replicate.mpr ⟨by omega, rfl⟩
      exact hq0 this
  · intro h
    subst h
    exact capMatch_self s

theorem takeWhile_pad {A : List Nat} (k : Nat) (h : 0 ∉ A) (hk : 1 ≤ k) :
    (A ++ List.replicate k 0).takeWhile (· != 0) = A := by
  induction A with
  | nil =>
      cases k with
      | zero => omega
      | succ k => simp [List.replicate, List.takeWhile]
  | cons a as ih =>
      have ha : (a != 0) = true := by
        have : a ≠ 0 := fun hc => h (by simp [hc])
        simp [this]
      have has : 0 ∉ as := fun hc => h (by simp [hc])
      simp [List.takeWhile, ha, ih has]

theorem takeWhile_nullfree {l : List Nat} {b : Nat}
    (hb : b ∈ l.takeWhile (· != 0)) : b ≠ 0 := by
  have := List.mem_takeWhile_imp hb
  simpa using this

theorem isCanonName_elim {l : List Nat} (h : isCanonName l = true) :
    ∃ s, 0 ∉ s ∧ s.length ≤ 31 ∧ l = canon s := by
  simp only [isCanonName, Bool.and_eq_true, decide_eq_true_eq] at h
  exact ⟨l.takeWhile (· != 0),
    fun hc => takeWhile_nullfree hc rfl, h.2, h.1⟩

theorem canon_isCanonName {q : List Nat} (h0 : 0 ∉ q) :
    isCanonName (canon q) = true := by
  have h31 : 0 ∉ q.take 31 := fun hc => h0 (List.take_subset 31 q hc)
  have hlen : (q.take 31).length = min q.length 31 := by
    simp [List.length_take, Nat.min_comm]
  have hw : (canon q).takeWhile (· != 0) = q.take 31 := by
    rw [canon]
    exact takeWhile_pad _ h31 (by omega)
  have hc : canon (q.take 31) = canon q := by
    rw [canon, canon, List.take_take, hlen]
    have e1 : (31 : Nat) ⊓ 31 = 31 := by omega
    have e2 : (32 : Nat) - q.length ⊓ 31 ⊓ 31 = 32 - q.length ⊓ 31 := by omega
    rw [e1, e2]
  simp only [isCanonName, hw, Bool.and_eq_true, decide_eq_true_eq]
  exact ⟨hc.symm, by omega⟩

theorem canon_inj {s q : List Nat} (hs0 : 0 ∉ s) (hq0 : 0 ∉ q)
    (hs : s.length ≤ 31) (hq : q.length ≤ 31) (h : canon s = canon q) :
    s = q := by
  have h1 : (canon s).takeWhile (· != 0) = s := by
    rw [canon_of_le hs]
    exact takeWhile_pad _ hs0 (by omega)
  have h2 : (canon q).takeWhile (· != 0) = q := by
    rw [canon_of_le hq]
    exact takeWhile_pad _ hq0 (by omega)
  rw [← h1, ← h2, h]

/-- Matching a canonical stored name against a null-free query of at most
31 bytes holds exactly when the stored buffer is the canonical form of the
query. -/
theorem capMatch_stored_iff {stored q : List Nat} (hst : isCanonName stored = true)
    (hq0 : 0 ∉ q) (hq : q.length ≤ 31) :
    capMatch stored q = true ↔ stored = canon q := by
  obtain ⟨s, hs0, hs, rfl⟩ := isCanonName_elim hst
  rw [capMatch_canon_iff hs0 hq0 hs hq]
  constructor
  · intro h
    subst h
    rfl
  · intro h
    exact canon_inj hs0 hq0 hs hq h

/-! ## Grant-list loop lemmas -/

theorem updateExisting_none {gs : List Grant} {q : List Nat} {e : Nat}
    (h : updateExisting gs q e = none) :
    ∀ g ∈ gs, capMatch g.cap_name q = false := by
  induction gs with
  | nil => intro g hg; cases hg
  | cons g0 gs ih =>
      intro g hg
      by_cases hm : capMatch g0.cap_name q = true
      · simp [updateExisting, hm] at h
      · have hm' : capMatch g0.cap_name q = false := by
          revert hm; cases capMatch g0.cap_name q <;> simp
        cases hrec : updateExisting gs q e with
        | none =>
            rcases List.mem_cons.mp hg with rfl | hg2
            · exact hm'
            · exact ih hrec g hg2
        | some gs2 => simp [updateExisting, hm', hrec] at h

theorem updateExisting_names {gs gs' : List Grant} {q : List Nat} {e : Nat}
    (h : updateExisting gs q e = some gs') :
    gs'.map Grant.cap_name = gs.map Grant.cap_name := by
  induction gs generalizing gs' with
  | nil => simp [updateExisting] at h
  | cons g0 gs ih =>
      by_cases hm : capMatch g0.cap_name q = true
      · simp only [updateExisting, hm, if_true] at h
        cases h
        simp
      · have hm' : capMatch g0.cap_name q = false := by
          revert hm; cases capMatch g0.cap_name q <;> simp
        cases hrec : updateExisting gs q e with
        | none => simp [updateExisting, hm', hrec] at h
        | some gs2 =>
            simp only [updateExisting, hm', Bool.false_eq_true, if_false, hrec] at h
            cases h
            simp [ih hrec]

theorem tombstoneFirst_names {gs gs' : List Grant} {q : List Nat}
    (h : tombstoneFirst gs q = some gs') :
    gs'.map Grant.cap_name = gs.map Grant.cap_name := by
  induction gs generalizing gs' with
  | nil => simp [tombstoneFirst] at h
  | cons g0 gs ih =>
      by_cases hm : g0.active = true ∧ capMatch g0.cap_name q = true
      · simp only [tombstoneFirst, if_pos hm] at h
        cases h
        simp
      · cases hrec : tombstoneFirst gs q with
        | none => simp [tombstoneFirst, if_neg hm, hrec] at h
        | some gs2 =>
            simp only [tombstoneFirst, if_neg hm, hrec] at h
            cases h
            simp [ih hrec]

theorem tombstoneFirst_none {gs : List Grant} {q : List Nat}
    (h : tombstoneFirst gs q = none) :
    ∀ g ∈ gs, ¬(g.active = true ∧ capMatch g.cap_name q = true) := by
  induction gs with
  | nil => intro g hg; cases hg
  | cons g0 gs ih =>
      intro g hg
      by_cases hm : g0.active = true ∧ capMatch g0.cap_name q = true
      · simp [tombstoneFirst, if_pos hm] at h
      · cases hrec : tombstoneFirst gs q with
        | none =>
            rcases List.mem_cons.mp hg with rfl | hg2
            · exact hm
            · exact ih hrec g hg2
        | some gs2 => simp [tombstoneFirst, if_neg hm, hrec] at h

theorem lookupLoop_not_valid {gs : List Grant} {q : List Nat} {now : Nat}
    (h : ∀ g ∈ gs, g.active = true → capMatch g.cap_name q = true →
      g.expires_at ≠ 0 ∧ g.expires_at ≤ now) :
    lookupLoop gs q now ≠ LookupRes.valid := by
  induction gs with
  | nil => simp [lookupLoop]
  | cons g gs ih =>
      have htail : ∀ g' ∈ gs, g'.active = true → capMatch g'.cap_name q = true →
          g'.expires_at ≠ 0 ∧ g'.expires_at ≤ now :=
        fun g' hg' => h g' (List.mem_cons_of_mem _ hg')
      by_cases ha : g.active = false
      · simpa [lookupLoop, ha] using ih htail
      · have ha' : g.active = true := by revert ha; cases g.active <;> simp
        by_cases hm : capMatch g.cap_name q = true
        · obtain ⟨h1, h2⟩ := h g (List.mem_cons_self g gs) ha' hm
          have hnv : ¬(g.expires_at = 0 ∨ now < g.expires_at) := by omega
          simp [lookupLoop, ha', hm, hnv]
        · have hm' : capMatch g.cap_name q = false := by
            revert hm; cases capMatch g.cap_name q <;> simp
          simpa [lookupLoop, ha', hm'] using ih htail

theorem lookupLoop_mono {gs : List Grant} {q : List Nat} {t t' : Nat}
    (hle : t ≤ t') (h : lookupLoop gs q t ≠ LookupRes.valid) :
    lookupLoop gs q t' ≠ LookupRes.valid := by
  induction gs with
  | nil => simpa [lookupLoop] using h
  | cons g gs ih =>
      by_cases ha : g.active = false
      · simp only [lookupLoop, ha, if_true] at h ⊢
        simpa [show (false = false) = True by simp] using ih (by simpa using h)
      · have ha' : g.active = true := by revert ha; cases g.active <;> simp
        by_cases hm : capMatch g.cap_name q = true
        · by_cases hv : g.expires_at = 0 ∨ t < g.expires_at
          · exfalso
            apply h
            simp [lookupLoop, ha', hm, hv]
          · have hv' : ¬(g.expires_at = 0 ∨ t' < g.expires_at) := by omega
            simp [lookupLoop, ha', hm, hv']
        · have hm' : capMatch g.cap_name q = false := by
            revert hm; cases capMatch g.cap_name q <;> simp
          simp only [lookupLoop, ha', hm'] at h ⊢
          simp only [Bool.true_eq_false, if_false] at h ⊢
          simpa [hm'] using ih (by simpa [hm'] using h)

/-! ## App-array lemmas and store invariants -/

/-- The application identities of the populated slots. -/
def appIdsOf (apps : List (Option AppEntry)) : List Nat :=
  apps.filterMap (fun o => o.map AppEntry.app_id)

theorem appIdsOf_nil : appIdsOf [] = [] := rfl

theorem appIdsOf_cons_none (rest : List (Option AppEntry)) :
    appIdsOf (none :: rest) = appIdsOf rest := rfl

theorem appIdsOf_cons_some (e : AppEntry) (rest : List (Option AppEntry)) :
    appIdsOf (some e :: rest) = e.app_id :: appIdsOf rest := rfl

theorem findApp_mem {apps : List (Option AppEntry)} {app : Nat} {e : AppEntry}
    (h : findApp apps app = some e) : some e ∈ apps ∧ e.app_id = app := by
  induction apps with
  | nil => simp [findApp] at h
  | cons o rest ih =>
      cases o with
      | none =>
          have := ih (by simpa [findApp] using h)
          exact ⟨List.mem_cons_of_mem _ this.1, this.2⟩
      | some x =>
          by_cases hx : x.app_id = app
          · simp only [findApp, if_pos hx] at h
            cases h
            exact ⟨List.mem_cons_self _ _, hx⟩
          · simp only [findApp, if_neg hx] at h
            have := ih h
            exact ⟨List.mem_cons_of_mem _ this.1, this.2⟩

theorem findApp_none_ids {apps : List (Option AppEntry)} {app : Nat}
    (h : findApp apps app = none) : app ∉ appIdsOf apps := by
  induction apps with
  | nil => simp [appIdsOf_nil]
  | cons o rest ih =>
      cases o with
      | none =>
          rw [appIdsOf_cons_none]
          exact ih (by simpa [findApp] using h)
      | some x =>
          by_cases hx : x.app_id = app
          · simp [findApp, if_pos hx] at h
          · rw [appIdsOf_cons_some]
            intro hmem
            rcases List.mem_cons.mp hmem with heq | hmem2
            · exact hx heq.symm
            · exact ih (by simpa [findApp, if_neg hx] using h) hmem2

theorem findApp_set {apps : List (Option AppEntry)} {app : Nat} {e : AppEntry}
    {gs : List Grant} (h : findApp apps app = some e) :
    findApp (setAppGrants apps app gs) app = some { e with grants := gs } := by
  induction apps with
  | nil => simp [findApp] at h
  | cons o rest ih =>
      cases o with
      | none =>
          simpa [findApp, setAppGrants] using ih (by simpa [findApp] using h)
      | some x =>
          by_cases hx : x.app_id = app
          · simp only [findApp, if_pos hx] at h
            cases h
            simp [setAppGrants, if_pos hx, findApp]
          · simp only [findApp, if_neg hx] at h
            simpa [setAppGrants, if_neg hx, findApp, hx] using ih h

theorem setAppGrants_ids (apps : List (Option AppEntry)) (app : Nat)
    (gs : List Grant) : appIdsOf (setAppGrants apps app gs) = appIdsOf apps := by
  induction apps with
  | nil => rfl
  | cons o rest ih =>
      cases o with
      | none => simpa [setAppGrants, appIdsOf_cons_none] using ih
      | some x =>
          by_cases hx : x.app_id = app
          · simp [setAppGrants, if_pos hx, appIdsOf_cons_some]
          · simp only [setAppGrants, if_neg hx, appIdsOf_cons_some]
            rw [ih]

theorem setAppGrants_mem {apps : List (Option AppEntry)} {app : Nat}
    {gs : List Grant} {o : Option AppEntry} (h : o ∈ setAppGrants apps app gs) :
    o ∈ apps ∨ ∃ e, some e ∈ apps ∧ o = some { e with grants := gs } := by
  induction apps with
  | nil => cases h
  | cons o0 rest ih =>
      cases o0 with
      | none =>
          rcases List.mem_cons.mp h with rfl | h2
          · exact Or.inl (List.mem_cons_self _ _)
          · rcases ih h2 with h3 | ⟨e, he, rfl⟩
            · exact Or.inl (List.mem_cons_of_mem _ h3)
            · exact Or.inr ⟨e, List.mem_cons_of_mem _ he, rfl⟩
      | some x =>
          by_cases hx : x.app_id = app
          · simp only [setAppGrants, if_pos hx] at h
            rcases List.mem_cons.mp h with rfl | h2
            · exact Or.inr ⟨x, List.mem_cons_self _ _, rfl⟩
            · exact Or.inl (List.mem_cons_of_mem _ h2)
          · simp only [setAppGrants, if_neg hx] at h
            rcases List.mem_cons.mp h with rfl | h2
            · exact Or.inl (List.mem_cons_self _ _)
            · rcases ih h2 with h3 | ⟨e, he, rfl⟩
              · exact Or.inl (List.mem_cons_of_mem _ h3)
              · exact Or.inr ⟨e, List.mem_cons_of_mem _ he, rfl⟩

theorem createApp_mem {apps apps' : List (Option AppEntry)} {e : AppEntry}
    {o : Option AppEntry} (h : createApp apps e = some apps') (ho : o ∈ apps') :
    o = some e ∨ o ∈ apps := by
  induction apps generalizing apps' with
  | nil => simp [createApp] at h
  | cons o0 rest ih =>
      cases o0 with
      | none =>
          simp only [createApp] at h
          cases h
          rcases List.mem_cons.mp ho with rfl | h2
          · exact Or.inl rfl
          · exact Or.inr (List.mem_cons_of_mem _ h2)
      | some x =>
          cases hrec : createApp rest e with
          | none => simp [createApp, hrec] at h
          | some rest2 =>
              simp only [createApp, hrec] at h
              cases h
              rcases List.mem_cons.mp ho with rfl | h2
              · exact Or.inr (List.mem_cons_self _ _)
              · rcases ih hrec h2 with h3 | h3
                · exact Or.inl h3
                · exact Or.inr (List.mem_cons_of_mem _ h3)

theorem createApp_ids {apps apps' : List (Option AppEntry)} {e : AppEntry}
    {i : Nat} (h : createApp apps e = some apps') (hi : i ∈ appIdsOf apps') :
    i = e.app_id ∨ i ∈ appIdsOf apps := by
  induction apps generalizing apps' with
  | nil => simp [createApp] at h
  | cons o0 rest ih =>
      cases o0 with
      | none =>
          simp only [createApp] at h
          cases h
          rw [appIdsOf_cons_some] at hi
          rcases List.mem_cons.mp hi with rfl | h2
          · exact Or.inl rfl
          · exact Or.inr h2
      | some x =>
          cases hrec : createApp rest e with
          | none => simp [createApp, hrec] at h
          | some rest2 =>
              simp only [createApp, hrec] at h
              cases h
              rw [appIdsOf_cons_some] at hi
              rw [appIdsOf_cons_some]
              rcases List.mem_cons.mp hi with rfl | h2
              · exact Or.inr (List.mem_cons_self _ _)
              · rcases ih hrec h2 with h3 | h3
                · exact Or.inl h3
                · exact Or.inr (List.mem_cons_of_mem _ h3)

theorem createApp_nodup {apps apps' : List (Option AppEntry)} {e : AppEntry}
    (h : createApp apps e = some apps') (hn : (appIdsOf apps).Nodup)
    (hni : e.app_id ∉ appIdsOf apps) : (appIdsOf apps').Nodup := by
  induction apps generalizing apps' with
  | nil => simp [createApp] at h
  | cons o0 rest ih =>
      cases o0 with
      | none =>
          simp only [createApp] at h
          cases h
          rw [appIdsOf_cons_some]
          rw [appIdsOf_cons_none] at hn hni
          exact List.nodup_cons.mpr ⟨hni, hn⟩
      | some x =>
          cases hrec : createApp rest e with
          | none => simp [createApp, hrec] at h
          | some rest2 =>
              simp only [createApp, hrec] at h
              cases h
              rw [appIdsOf_cons_some] at hn hni ⊢
              obtain ⟨hx, hn2⟩ := List.nodup_cons.mp hn
              refine List.nodup_cons.mpr ⟨?_, ?_⟩
              · intro hmem
                rcases createApp_ids hrec hmem with h3 | h3
                · exact hni (by simp [h3])
                · exact hx h3
              · exact ih hrec hn2 (fun hc => hni (List.mem_cons_of_mem _ hc))

theorem createApp_find {apps apps' : List (Option AppEntry)} {e : AppEntry}
    (h : createApp apps e = some apps') (hf : findApp apps e.app_id = none) :
    findApp apps' e.app_id = some e := by
  induction apps generalizing apps' with
  | nil => simp [createApp] at h
  | cons o0 rest ih =>
      cases o0 with
      | none =>
          simp only [createApp] at h
          cases h
          simp [findApp]
      | some x =>
          have hx : x.app_id ≠ e.app_id := by
            intro hc
            simp [findApp, if_pos hc] at hf
          cases hrec : createApp rest e with
          | none => simp [createApp, hrec] at h
          | some rest2 =>
              simp only [createApp, hrec] at h
              cases h
              simp only [findApp, if_neg hx]
              exact ih hrec (by simpa [findApp, if_neg hx] using hf)

/-- Per-entry boolean: the stored Clear-Names are pairwise distinct. -/
def namesNodupB (o : Option AppEntry) : Bool :=
  match o with
  | none => true
  | some e => decide (e.grants.map Grant.cap_name).Nodup

/-- Per-entry boolean: every stored Clear-Name is in canonical 32-byte form. -/
def namesCanonB (o : Option AppEntry) : Bool :=
  match o with
  | none => true
  | some e => e.grants.all (fun g => isCanonName g.cap_name)

/-- The two claimed store invariants: at most one AppEntry per application
identity, and within one AppEntry the stored Clear-Names are pairwise
distinct (byte equality, hence case-sensitive). -/
def InvDB (db : PolicyDB) : Prop :=
  (appIdsOf db.apps).Nodup ∧ ∀ o ∈ db.apps, namesNodupB o = true

/-- All stored names are canonical 32-byte buffers (the shape
`PolicyDB::grant` writes). -/
def CanonDB (db : PolicyDB) : Prop :=
  ∀ o ∈ db.apps, namesCanonB o = true

instance InvDB.decidable (db : PolicyDB) : Decidable (InvDB db) :=
  inferInstanceAs (Decidable ((appIdsOf db.apps).Nodup ∧
    ∀ o ∈ db.apps, namesNodupB o = true))

instance CanonDB.decidable (db : PolicyDB) : Decidable (CanonDB db) :=
  inferInstanceAs (Decidable (∀ o ∈ db.apps, namesCanonB o = true))

theorem setAppGrants_namesNodup {apps : List (Option AppEntry)} {app : Nat}
    {gs : List Grant} (h : ∀ o ∈ apps, namesNodupB o = true)
    (hgs : (gs.map Grant.cap_name).Nodup) :
    ∀ o ∈ setAppGrants apps app gs, namesNodupB o = true := by
  intro o ho
  rcases setAppGrants_mem ho with h2 | ⟨e, _, rfl⟩
  · exact h o h2
  · simpa [namesNodupB] using hgs

theorem setAppGrants_namesCanon {apps : List (Option AppEntry)} {app : Nat}
    {gs : List Grant} (h : ∀ o ∈ apps, namesCanonB o = true)
    (hgs : ∀ g ∈ gs, isCanonName g.cap_name = true) :
    ∀ o ∈ setAppGrants apps app gs, namesCanonB o = true := by
  intro o ho
  rcases setAppGrants_mem ho with h2 | ⟨e, _, rfl⟩
  · exact h o h2
  · simpa [namesCanonB, List.all_eq_true] using hgs

/-! ## Operation-level lemmas -/

theorem InvDB_of_apps_eq {db db' : PolicyDB} (h : db'.apps = db.apps)
    (hi : InvDB db) : InvDB db' := by
  unfold InvDB at *
  rw [h]
  exact hi

theorem CanonDB_of_apps_eq {db db' : PolicyDB} (h : db'.apps = db.apps)
    (hi : CanonDB db) : CanonDB db' := by
  unfold CanonDB at *
  rw [h]
  exact hi

theorem audit_apps (db : PolicyDB) (app : Nat) (action : AuditAction)
    (cap : List Nat) (success : Bool) :
    (audit db app action cap success).apps = db.apps := rfl

theorem update_time_apps (db : PolicyDB) (t : Nat) :
    (update_time db t).apps = db.apps := rfl

theorem is_granted_apps (db : PolicyDB) (t app : Nat) (cap : List Nat) :
    (is_granted db t app cap).1.apps = db.apps := by
  unfold is_granted
  split
  · rfl
  · split <;> rfl

theorem is_expired_apps (db : PolicyDB) (t app : Nat) (cap : List Nat) :
    (is_expired db t app cap).1.apps = db.apps := by
  unfold is_expired
  split
  · rfl
  · split <;> rfl

theorem log_denial_apps (db : PolicyDB) (app : Nat) (cap : List Nat) :
    (log_denial db app cap).apps = db.apps := rfl

/-- The boolean answer of `is_granted` as a pure function of the app array
and the refreshed time. -/
def grantedB (apps : List (Option AppEntry)) (now app : Nat) (cap : List Nat) :
    Bool :=
  match findApp apps app with
  | none => false
  | some e => decide (lookupLoop e.grants cap now = LookupRes.valid)

theorem is_granted_snd (db : PolicyDB) (t app : Nat) (cap : List Nat) :
    (is_granted db t app cap).2 = grantedB db.apps t app cap := by
  unfold is_granted grantedB
  cases hf : findApp db.apps app with
  | none => rfl
  | some e =>
      dsimp only
      cases hl : lookupLoop e.grants cap t <;> simp [hl]

/-- After a successful `updateExisting`, every grant whose stored name
matches the query carries the new expiry (the refreshed first match does,
and name uniqueness excludes any other match). -/
theorem updateExisting_match_expires {gs gs2 : List Grant} {q : List Nat}
    {E : Nat} (hc : ∀ g ∈ gs, isCanonName g.cap_name = true)
    (hn : (gs.map Grant.cap_name).Nodup) (hq0 : 0 ∉ q) (hq : q.length ≤ 31)
    (h : updateExisting gs q E = some gs2) :
    ∀ g ∈ gs2, capMatch g.cap_name q = true → g.expires_at = E := by
  induction gs generalizing gs2 with
  | nil => simp [updateExisting] at h
  | cons g0 gs ih =>
      have hn2 : g0.cap_name ∉ gs.map Grant.cap_name ∧
          (gs.map Grant.cap_name).Nodup := by
        rw [List.map_cons] at hn
        exact List.nodup_cons.mp hn
      obtain ⟨hn0, hntail⟩ := hn2
      have hctail : ∀ g ∈ gs, isCanonName g.cap_name = true :=
        fun g hg => hc g (List.mem_cons_of_mem _ hg)
      by_cases hm : capMatch g0.cap_name q = true
      · simp only [updateExisting, hm, if_true] at h
        cases h
        intro g hg hgm
        rcases List.mem_cons.mp hg with rfl | hg2
        · rfl
        · exfalso
          have hg0c : isCanonName g0.cap_name = true :=
            hc g0 (List.mem_cons_self _ _)
          have hgc : isCanonName g.cap_name = true := hctail g hg2
          have e0 : g0.cap_name = canon q := (capMatch_stored_iff hg0c hq0 hq).mp hm
          have e1 : g.cap_name = canon q := (capMatch_stored_iff hgc hq0 hq).mp hgm
          exact hn0 (e0 ▸ e1 ▸ List.mem_map_of_mem Grant.cap_name hg2)
      · have hm' : capMatch g0.cap_name q = false := by
          revert hm; cases capMatch g0.cap_name q <;> simp
        cases hrec : updateExisting gs q E with
        | none => simp [updateExisting, hm', hrec] at h
        | some gsr =>
            simp only [updateExisting, hm', Bool.false_eq_true, if_false, hrec] at h
            cases h
            intro g hg hgm
            rcases List.mem_cons.mp hg with rfl | hg2
            · rw [hgm] at hm'; cases hm'
            · exact ih hctail hntail hrec g hg2 hgm

/-- After `tombstoneFirst` succeeds on a canonical, name-unique grant list,
no active grant matching the query remains. -/
theorem tombstone_no_active {gs gs2 : List Grant} {q : List Nat}
    (hc : ∀ g ∈ gs, isCanonName g.cap_name = true)
    (hn : (gs.map Grant.cap_name).Nodup) (hq0 : 0 ∉ q) (hq : q.length ≤ 31)
    (h : tombstoneFirst gs q = some gs2) :
    ∀ g ∈ gs2, g.active = true → capMatch g.cap_name q = false := by
  induction gs generalizing gs2 with
  | nil => simp [tombstoneFirst] at h
  | cons g0 gs ih =>
      have hn2 : g0.cap_name ∉ gs.map Grant.cap_name ∧
          (gs.map Grant.cap_name).Nodup := by
        rw [List.map_cons] at hn
        exact List.nodup_cons.mp hn
      obtain ⟨hn0, hntail⟩ := hn2
      have hctail : ∀ g ∈ gs, isCanonName g.cap_name = true :=
        fun g hg => hc g (List.mem_cons_of_mem _ hg)
      by_cases hm : g0.active = true ∧ capMatch g0.cap_name q = true
      · simp only [tombstoneFirst, if_pos hm] at h
        cases h
        intro g hg hga
        rcases List.mem_cons.mp hg with rfl | hg2
        · simp at hga
        · by_contra hmm
          have hgm : capMatch g.cap_name q = true := by
            revert hmm; cases capMatch g.cap_name q <;> simp
          have hg0c : isCanonName g0.cap_name = true :=
            hc g0 (List.mem_cons_self _ _)
          have hgc : isCanonName g.cap_name = true := hctail g hg2
          have e0 : g0.cap_name = canon q := (capMatch_stored_iff hg0c hq0 hq).mp hm.2
          have e1 : g.cap_name = canon q := (capMatch_stored_iff hgc hq0 hq).mp hgm
          exact hn0 (e0 ▸ e1 ▸ List.mem_map_of_mem Grant.cap_name hg2)
      · cases hrec : tombstoneFirst gs q with
        | none => simp [tombstoneFirst, if_neg hm, hrec] at h
        | some gsr =>
            simp only [tombstoneFirst, if_neg hm, hrec] at h
            cases h
            intro g hg hga
            rcases List.mem_cons.mp hg with rfl | hg2
            · by_contra hmm
              have hgm : capMatch g.cap_name q = true := by
                revert hmm; cases capMatch g.cap_name q <;> simp
              exact hm ⟨hga, hgm⟩
            · exact ih hctail hntail hrec g hg2 hga

theorem canonList_of_names_eq {gs gs2 : List Grant}
    (hnames : gs2.map Grant.cap_name = gs.map Grant.cap_name)
    (h : ∀ g ∈ gs, isCanonName g.cap_name = true) :
    ∀ g ∈ gs2, isCanonName g.cap_name = true := by
  intro g hg
  have hmem : g.cap_name ∈ gs.map Grant.cap_name := by
    rw [← hnames]
    exact List.mem_map_of_mem Grant.cap_name hg
  obtain ⟨g0, hg0, he⟩ := List.mem_map.mp hmem
  exact he ▸ h g0 hg0

theorem grant_fail_apps {db : PolicyDB} {t app : Nat} {cap : List Nat}
    {dur : Option Nat} {e : Error} (h : (grant db t app cap dur).2 = some e) :
    (grant db t app cap dur).1.apps = db.apps ∧ e = Error.NoMem := by
  unfold grant at *
  cases hf : findApp db.apps app with
  | some entry =>
      cases hu : updateExisting entry.grants cap (grantExpires t dur) with
      | some gs2 => simp [hf, hu] at h
      | none =>
          by_cases hb : MAX_GRANTS_PER_APP ≤ entry.grants.length
          · simp only [hf, hu, if_pos hb] at h ⊢
            cases h
            exact ⟨rfl, rfl⟩
          · simp [hf, hu, if_neg hb] at h
  | none =>
      cases hcr : createApp db.apps ⟨app, [⟨canon cap, t, grantExpires t dur, true⟩]⟩ with
      | none =>
          simp only [hf, hcr] at h ⊢
          cases h
          exact ⟨rfl, rfl⟩
      | some apps2 => simp [hf, hcr] at h

/-! ## Invariant preservation -/

theorem grant_inv {db : PolicyDB} (t app : Nat) (cap : List Nat)
    (dur : Option Nat) (h : InvDB db) : InvDB (grant db t app cap dur).1 := by
  obtain ⟨hids, hnames⟩ := h
  unfold grant
  cases hf : findApp db.apps app with
  | some entry =>
      dsimp only
      obtain ⟨hmem, hid⟩ := findApp_mem hf
      have hend : (entry.grants.map Grant.cap_name).Nodup := by
        simpa [namesNodupB] using hnames _ hmem
      cases hu : updateExisting entry.grants cap (grantExpires t dur) with
      | some gs2 =>
          dsimp only
          refine ⟨?_, ?_⟩
          · show (appIdsOf (setAppGrants db.apps app gs2)).Nodup
            rw [setAppGrants_ids]
            exact hids
          · show ∀ o ∈ setAppGrants db.apps app gs2, namesNodupB o = true
            refine setAppGrants_namesNodup hnames ?_
            rw [updateExisting_names hu]
            exact hend
      | none =>
          dsimp only
          by_cases hb : MAX_GRANTS_PER_APP ≤ entry.grants.length
          · simp only [if_pos hb]
            exact ⟨hids, hnames⟩
          · simp only [if_neg hb]
            have happ : ((entry.grants ++ [(⟨canon cap, t, grantExpires t dur, true⟩ : Grant)]).map
                Grant.cap_name).Nodup := by
              rw [List.map_append]
              refine List.Nodup.append hend (by simp) ?_
              intro a ha hb2
              have ha2 : a = canon cap := by simpa using hb2
              subst ha2
              obtain ⟨g, hg, hge⟩ := List.mem_map.mp ha
              have hcm := updateExisting_none hu g hg
              rw [hge] at hcm
              rw [capMatch_self cap] at hcm
              cases hcm
            refine ⟨?_, ?_⟩
            · show (appIdsOf (setAppGrants db.apps app _)).Nodup
              rw [setAppGrants_ids]
              exact hids
            · exact setAppGrants_namesNodup hnames happ
  | none =>
      dsimp only
      cases hcr : createApp db.apps ⟨app, [⟨canon cap, t, grantExpires t dur, true⟩]⟩ with
      | none => exact ⟨hids, hnames⟩
      | some apps2 =>
          dsimp only
          refine ⟨?_, ?_⟩
          · show (appIdsOf apps2).Nodup
            exact createApp_nodup hcr hids (findApp_none_ids hf)
          · show ∀ o ∈ apps2, namesNodupB o = true
            intro o ho
            rcases createApp_mem hcr ho with rfl | h2
            · simp [namesNodupB]
            · exact hnames o h2

theorem grant_canon {db : PolicyDB} (t app : Nat) {cap : List Nat}
    (dur : Option Nat) (h : CanonDB db) (h0 : 0 ∉ cap) :
    CanonDB (grant db t app cap dur).1 := by
  unfold grant
  cases hf : findApp db.apps app with
  | some entry =>
      dsimp only
      obtain ⟨hmem, hid⟩ := findApp_mem hf
      have hce : ∀ g ∈ entry.grants, isCanonName g.cap_name = true := by
        simpa [namesCanonB, List.all_eq_true] using h _ hmem
      cases hu : updateExisting entry.grants cap (grantExpires t dur) with
      | some gs2 =>
          dsimp only
          show ∀ o ∈ setAppGrants db.apps app gs2, namesCanonB o = true
          exact setAppGrants_namesCanon h
            (canonList_of_names_eq (updateExisting_names hu) hce)
      | none =>
          dsimp only
          by_cases hb : MAX_GRANTS_PER_APP ≤ entry.grants.length
          · simp only [if_pos hb]
            exact h
          · simp only [if_neg hb]
            refine setAppGrants_namesCanon h ?_
            intro g hg
            rcases List.mem_append.mp hg with hg2 | hg2
            · exact hce g hg2
            · have : g = ⟨canon cap, t, grantExpires t dur, true⟩ := by simpa using hg2
              subst this
              exact canon_isCanonName h0
  | none =>
      dsimp only
      cases hcr : createApp db.apps ⟨app, [⟨canon cap, t, grantExpires t dur, true⟩]⟩ with
      | none => exact h
      | some apps2 =>
          dsimp only
          show ∀ o ∈ apps2, namesCanonB o = true
          intro o ho
          rcases createApp_mem hcr ho with rfl | h2
          · simp [namesCanonB, canon_isCanonName h0]
          · exact h o h2

theorem revoke_inv {db : PolicyDB} (t app : Nat) (cap : List Nat)
    (h : InvDB db) : InvDB (revoke db t app cap) := by
  obtain ⟨hids, hnames⟩ := h
  unfold revoke
  cases hf : findApp db.apps app with
  | none => exact ⟨hids, hnames⟩
  | some entry =>
      dsimp only
      obtain ⟨hmem, hid⟩ := findApp_mem hf
      have hend : (entry.grants.map Grant.cap_name).Nodup := by
        simpa [namesNodupB] using hnames _ hmem
      cases ht : tombstoneFirst entry.grants cap with
      | none => exact ⟨hids, hnames⟩
      | some gs2 =>
          dsimp only
          refine ⟨?_, ?_⟩
          · show (appIdsOf (setAppGrants db.apps app gs2)).Nodup
            rw [setAppGrants_ids]
            exact hids
          · refine setAppGrants_namesNodup hnames ?_
            rw [tombstoneFirst_names ht]
            exact hend

theorem revoke_canon {db : PolicyDB} (t app : Nat) (cap : List Nat)
    (h : CanonDB db) : CanonDB (revoke db t app cap) := by
  unfold revoke
  cases hf : findApp db.apps app with
  | none => exact h
  | some entry =>
      dsimp only
      obtain ⟨hmem, hid⟩ := findApp_mem hf
      have hce : ∀ g ∈ entry.grants, isCanonName g.cap_name = true := by
        simpa [namesCanonB, List.all_eq_true] using h _ hmem
      cases ht : tombstoneFirst entry.grants cap with
      | none => exact h
      | some gs2 =>
          dsimp only
          exact setAppGrants_namesCanon h
            (canonList_of_names_eq (tombstoneFirst_names ht) hce)

/-! ## Behaviour of revoke and grant with respect to is_granted -/

/-- After `revoke`, a well-formed store never reports the name as granted,
at any clock value. -/
theorem revoke_not_granted {db : PolicyDB} {app : Nat} {cap : List Nat}
    (hc : CanonDB db) (hn : ∀ o ∈ db.apps, namesNodupB o = true)
    (h0 : 0 ∉ cap) (hlen : cap.length ≤ 31) (t t' : Nat) :
    (is_granted (revoke db t app cap) t' app cap).2 = false := by
  rw [is_granted_snd]
  unfold revoke
  cases hf : findApp db.apps app with
  | none =>
      show grantedB db.apps t' app cap = false
      unfold grantedB
      rw [hf]
  | some entry =>
      dsimp only
      have hmem := (findApp_mem hf).1
      have hce : ∀ g ∈ entry.grants, isCanonName g.cap_name = true := by
        simpa [namesCanonB, List.all_eq_true] using hc _ hmem
      have hne : (entry.grants.map Grant.cap_name).Nodup := by
        simpa [namesNodupB] using hn _ hmem
      cases ht : tombstoneFirst entry.grants cap with
      | none =>
          dsimp only
          show grantedB db.apps t' app cap = false
          unfold grantedB
          rw [hf]
          have hdead := tombstoneFirst_none ht
          have hnv : lookupLoop entry.grants cap t' ≠ LookupRes.valid :=
            lookupLoop_not_valid (fun g hg ha hm => absurd ⟨ha, hm⟩ (hdead g hg))
          simp [hnv]
      | some gs2 =>
          dsimp only
          show grantedB (setAppGrants db.apps app gs2) t' app cap = false
          unfold grantedB
          rw [findApp_set hf]
          have hno := tombstone_no_active hce hne h0 hlen ht
          have hnv : lookupLoop gs2 cap t' ≠ LookupRes.valid := by
            apply lookupLoop_not_valid
            intro g hg ha hm
            rw [hno g hg ha] at hm
            cases hm
          simp [hnv]

/-- After a successful `grant` with duration `dur` on a well-formed store,
a query at any time at or past the computed expiry (when that expiry is
nonzero) reports the name as not granted. -/
theorem grant_not_granted_after {db : PolicyDB} {app : Nat} {cap : List Nat}
    {dur : Option Nat} {t t' : Nat}
    (hc : CanonDB db) (hn : ∀ o ∈ db.apps, namesNodupB o = true)
    (h0 : 0 ∉ cap) (hlen : cap.length ≤ 31)
    (hok : (grant db t app cap dur).2 = none)
    (hE : grantExpires t dur ≠ 0) (ht' : grantExpires t dur ≤ t') :
    (is_granted (grant db t app cap dur).1 t' app cap).2 = false := by
  rw [is_granted_snd]
  unfold grant at hok ⊢
  cases hf : findApp db.apps app with
  | some entry =>
      dsimp only
      have hmem := (findApp_mem hf).1
      have hce : ∀ g ∈ entry.grants, isCanonName g.cap_name = true := by
        simpa [namesCanonB, List.all_eq_true] using hc _ hmem
      have hne : (entry.grants.map Grant.cap_name).Nodup := by
        simpa [namesNodupB] using hn _ hmem
      cases hu : updateExisting entry.grants cap (grantExpires t dur) with
      | some gs2 =>
          dsimp only
          show grantedB (setAppGrants db.apps app gs2) t' app cap = false
          unfold grantedB
          rw [findApp_set hf]
          have hq := updateExisting_match_expires hce hne h0 hlen hu
          have hnv : lookupLoop gs2 cap t' ≠ LookupRes.valid := by
            apply lookupLoop_not_valid
            intro g hg ha hm
            rw [hq g hg hm]
            exact ⟨hE, ht'⟩
          simp [hnv]
      | none =>
          dsimp only
          by_cases hb : MAX_GRANTS_PER_APP ≤ entry.grants.length
          · simp only [hf, hu, if_pos hb] at hok
            cases hok
          · simp only [if_neg hb]
            show grantedB (setAppGrants db.apps app
              (entry.grants ++ [⟨canon cap, t, grantExpires t dur, true⟩])) t' app cap = false
            unfold grantedB
            rw [findApp_set hf]
            have hdead := updateExisting_none hu
            have hnv : lookupLoop (entry.grants ++
                [⟨canon cap, t, grantExpires t dur, true⟩]) cap t' ≠ LookupRes.valid := by
              apply lookupLoop_not_valid
              intro g hg ha hm
              rcases List.mem_append.mp hg with hg2 | hg2
              · rw [hdead g hg2] at hm
                cases hm
              · have : g = ⟨canon cap, t, grantExpires t dur, true⟩ := by simpa using hg2
                subst this
                exact ⟨hE, ht'⟩
            simp [hnv]
  | none =>
      dsimp only
      cases hcr : createApp db.apps ⟨app, [⟨canon cap, t, grantExpires t dur, true⟩]⟩ with
      | none =>
          simp only [hf, hcr] at hok
          cases hok
      | some apps2 =>
          dsimp only
          show grantedB apps2 t' app cap = false
          unfold grantedB
          rw [createApp_find hcr hf]
          have hnv : lookupLoop [⟨canon cap, t, grantExpires t dur, true⟩] cap t'
              ≠ LookupRes.valid := by
            apply lookupLoop_not_valid
            intro g hg ha hm
            have : g = ⟨canon cap, t, grantExpires t dur, true⟩ := by simpa using hg
            subst this
            exact ⟨hE, ht'⟩
          simp [hnv]

/-- A name not granted at time `now` stays not granted at any later time
(over the same app array): active matches can only be expired, and expiry
is monotone. -/
theorem grantedB_mono {apps : List (Option AppEntry)} {now now' app : Nat}
    {cap : List Nat} (h : grantedB apps now app cap = false) (hle : now ≤ now') :
    grantedB apps now' app cap = false := by
  unfold grantedB at h ⊢
  cases hf : findApp apps app with
  | none => rfl
  | some e =>
      rw [hf] at h
      have h2 : lookupLoop e.grants cap now ≠ LookupRes.valid := by
        intro hc
        simp [hc] at h
      have h3 := lookupLoop_mono hle h2
      simp [h3]

theorem updateExisting_isSome (gs : List Grant) (q : List Nat) (E E2 : Nat) :
    (updateExisting gs q E).isSome = (updateExisting gs q E2).isSome := by
  induction gs with
  | nil => rfl
  | cons g gs ih =>
      by_cases hm : capMatch g.cap_name q = true
      · simp [updateExisting, hm]
      · have hm' : capMatch g.cap_name q = false := by
          revert hm; cases capMatch g.cap_name q <;> simp
        simp only [updateExisting, hm', Bool.false_eq_true, if_false]
        cases h1 : updateExisting gs q E with
        | none =>
            cases h2 : updateExisting gs q E2 with
            | none => rfl
            | some l => rw [h1, h2] at ih; simp at ih
        | some l =>
            cases h2 : updateExisting gs q E2 with
            | none => rw [h1, h2] at ih; simp at ih
            | some l2 => rfl

theorem createApp_isSome (apps : List (Option AppEntry)) (e e2 : AppEntry) :
    (createApp apps e).isSome = (createApp apps e2).isSome := by
  induction apps with
  | nil => rfl
  | cons o rest ih =>
      cases o with
      | none => rfl
      | some x =>
          simp only [createApp]
          cases h1 : createApp rest e with
          | none =>
              cases h2 : createApp rest e2 with
              | none => rfl
              | some l => rw [h1, h2] at ih; simp at ih
          | some l =>
              cases h2 : createApp rest e2 with
              | none => rw [h1, h2] at ih; simp at ih
              | some l2 => rfl

/-- The success or failure of `grant` depends only on the app array, not on
the clock, the duration, or the audit state. -/
theorem grant_snd_eq {db db' : PolicyDB} (app : Nat) (cap : List Nat)
    (t t2 : Nat) (dur dur2 : Option Nat) (h : db'.apps = db.apps) :
    (grant db' t2 app cap dur2).2 = (grant db t app cap dur).2 := by
  unfold grant
  rw [h]
  cases hf : findApp db.apps app with
  | some entry =>
      dsimp only
      cases hu : updateExisting entry.grants cap (grantExpires t2 dur2) with
      | some gs2 =>
          cases hu2 : updateExisting entry.grants cap (grantExpires t dur) with
          | some gsb => rfl
          | none =>
              have := updateExisting_isSome entry.grants cap (grantExpires t2 dur2)
                (grantExpires t dur)
              rw [hu, hu2] at this
              simp at this
      | none =>
          cases hu2 : updateExisting entry.grants cap (grantExpires t dur) with
          | some gsb =>
              have := updateExisting_isSome entry.grants cap (grantExpires t2 dur2)
                (grantExpires t dur)
              rw [hu, hu2] at this
              simp at this
          | none =>
              by_cases hb : MAX_GRANTS_PER_APP ≤ entry.grants.length
              · simp [if_pos hb]
              · simp [if_neg hb]
  | none =>
      dsimp only
      cases hcr : createApp db.apps ⟨app, [⟨canon cap, t2, grantExpires t2 dur2, true⟩]⟩ with
      | some apps2 =>
          cases hcr2 : createApp db.apps ⟨app, [⟨canon cap, t, grantExpires t dur, true⟩]⟩ with
          | some apps3 => rfl
          | none =>
              have := createApp_isSome db.apps
                ⟨app, [⟨canon cap, t2, grantExpires t2 dur2, true⟩]⟩
                ⟨app, [⟨canon cap, t, grantExpires t dur, true⟩]⟩
              rw [hcr, hcr2] at this
              simp at this
      | none =>
          cases hcr2 : createApp db.apps ⟨app, [⟨canon cap, t, grantExpires t dur, true⟩]⟩ with
          | some apps3 =>
              have := createApp_isSome db.apps
                ⟨app, [⟨canon cap, t2, grantExpires t2 dur2, true⟩]⟩
                ⟨app, [⟨canon cap, t, grantExpires t dur, true⟩]⟩
              rw [hcr, hcr2] at this
              simp at this
          | none => rfl

/-! ## Request-handler anatomy -/

/-- In the genesis sources consent always approves: the prompt auto-approves
for every risk level and the hardware-presence check returns true. -/
theorem consent_decision_true (attest : Bool) (app : Nat) (cap : List Nat)
    (risk : RiskLevel) : consent_decision attest app cap risk = true := by
  cases risk <;> rfl

/-- Full case analysis of `handle_capability_request` when name resolution
fails with error `e`: no kernel operation is issued, and the run is the warm
path (delegation fails immediately), the grant-failure path, or the
grant-then-rollback path. -/
theorem handler_resolve_error (k : KernelOp → Int) (attest : Bool) (t : Nat)
    (db : PolicyDB) (app : Nat) {cap : List Nat} {e : Error}
    (hres : resolve_system_capability cap = Except.error e) :
    (handle_capability_request k attest t db app cap).kops = [] ∧
    (((is_granted db t app cap).2 = true ∧
      (handle_capability_request k attest t db app cap).resp = Response.Error e ∧
      (handle_capability_request k attest t db app cap).db = (is_granted db t app cap).1) ∨
     ((is_granted db t app cap).2 = false ∧
      ((∃ e2, (grant (is_granted db t app cap).1 t app cap
          (some (assess_risk cap).default_duration)).2 = some e2 ∧
        (handle_capability_request k attest t db app cap).resp = Response.Error e2 ∧
        (handle_capability_request k attest t db app cap).db =
          (grant (is_granted db t app cap).1 t app cap
            (some (assess_risk cap).default_duration)).1) ∨
       ((grant (is_granted db t app cap).1 t app cap
          (some (assess_risk cap).default_duration)).2 = none ∧
        (handle_capability_request k attest t db app cap).resp = Response.Error e ∧
        (handle_capability_request k attest t db app cap).db =
          revoke (grant (is_granted db t app cap).1 t app cap
            (some (assess_risk cap).default_duration)).1 t app cap)))) := by
  have hdel : delegate_capability k app cap = (Except.error e, []) := by
    unfold delegate_capability
    rw [hres]
  rcases hig : is_granted db t app cap with ⟨db1, b⟩
  unfold handle_capability_request
  rw [hig, hdel]
  cases b with
  | true =>
      dsimp only
      exact ⟨rfl, Or.inl ⟨rfl, rfl, rfl⟩⟩
  | false =>
      dsimp only
      rw [consent_decision_true]
      simp only [if_true]
      rcases hg : grant db1 t app cap (some (assess_risk cap).default_duration)
        with ⟨db2, oe⟩
      cases oe with
      | some e2 =>
          dsimp only
          exact ⟨rfl, Or.inr ⟨by trivial, Or.inl ⟨e2, rfl, rfl, rfl⟩⟩⟩
      | none =>
          dsimp only
          exact ⟨rfl, Or.inr ⟨by trivial, Or.inr ⟨rfl, rfl, rfl⟩⟩⟩

/-! ## Claims -/

/-- Kernel oracle that answers every syscall with 0 (success; for
`cap_mint` the new slot is 0). -/
def kZero : KernelOp → Int := fun _ => 0

/-- C7: grant-store name matching is strict byte-equality over the canonical
32-byte null-padded form. For every stored grant name (the canonical padding
of a null-free name of at most 31 bytes) and every null-free queried
Clear-Name of 1 to 31 bytes, `cap_match` succeeds exactly when the two names
are byte-identical; in particular `a.bc` stored never matches query `a.b`,
and `a.b` stored never matches query `a.bc`. (Nonemptiness of the query
keeps the statement inside the domain where the Rust code is defined: on an
empty query with a nonzero first stored byte the dead quick-reject line of
`cap_match` would index `query[0]` out of bounds.) -/
theorem c7_cap_match_strict {s q : List Nat} (hs0 : 0 ∉ s) (hq0 : 0 ∉ q)
    (hs : s.length ≤ 31) (hq : q.length ≤ 31) (hqpos : 0 < q.length) :
    capMatch (canon s) q = true ↔ s = q :=
  capMatch_canon_iff hs0 hq0 hs hq

/-- Witness for C7 at the prefix-collision pair of the spec: stored "a.b"
against query "a.bc". -/
theorem c7_witness :
    (0 : Nat) ∉ bAB ∧ (0 : Nat) ∉ bABC ∧ bAB.length ≤ 31 ∧ bABC.length ≤ 31 ∧
    0 < bABC.length ∧ (capMatch (canon bAB) bABC = true ↔ bAB = bABC) :=
  ⟨by decide, by decide, by decide, by decide, by decide,
    c7_cap_match_strict (by decide) (by decide) (by decide) (by decide) (by decide)⟩

/-- C9: every grant-store operation (`is_granted`, `grant`, `revoke`,
`is_expired`, `log_denial`) preserves the invariants that the store has at
most one AppEntry per application identity and that within one AppEntry the
stored Clear-Names are pairwise distinct (case-sensitive byte equality). -/
theorem c9_invariants_preserved (db : PolicyDB) (t app : Nat) (cap : List Nat)
    (dur : Option Nat) (h : InvDB db) :
    InvDB (is_granted db t app cap).1 ∧ InvDB (grant db t app cap dur).1 ∧
    InvDB (revoke db t app cap) ∧ InvDB (is_expired db t app cap).1 ∧
    InvDB (log_denial db app cap) :=
  ⟨InvDB_of_apps_eq (is_granted_apps db t app cap) h,
   grant_inv t app cap dur h,
   revoke_inv t app cap h,
   InvDB_of_apps_eq (is_expired_apps db t app cap) h,
   InvDB_of_apps_eq (log_denial_apps db app cap) h⟩

/-- Witness for C9 on the empty store. -/
theorem c9_witness :
    InvDB PolicyDB.new ∧
    (InvDB (is_granted PolicyDB.new 0 7 bAB).1 ∧
     InvDB (grant PolicyDB.new 0 7 bAB (some 5)).1 ∧
     InvDB (revoke PolicyDB.new 0 7 bAB) ∧
     InvDB (is_expired PolicyDB.new 0 7 bAB).1 ∧
     InvDB (log_denial PolicyDB.new 7 bAB)) :=
  ⟨by decide, c9_invariants_preserved PolicyDB.new 0 7 bAB (some 5) (by decide)⟩

/-- C6: after `revoke(id, n)` returns, `is_granted(id, n)` is false at every
clock value: the tombstoned grant is never observable as currently granted.
Stated over stores satisfying the documented invariants (canonical stored
names, unique names per entry) for null-free Clear-Names of 1 to 31 bytes. -/
theorem c6_revoke_never_granted (db : PolicyDB) (app : Nat) (cap : List Nat)
    (t t' : Nat) (hi : InvDB db) (hc : CanonDB db) (h0 : 0 ∉ cap)
    (hpos : 0 < cap.length) (hlen : cap.length ≤ 31) :
    (is_granted (revoke db t app cap) t' app cap).2 = false :=
  revoke_not_granted hc hi.2 h0 hlen t t'

/-- Witness for C6: grant "a.b" to app 7 at time 3 for 1 second, revoke at
time 4, query at time 4 (well before the expiry 1003). -/
theorem c6_witness :
    InvDB (grant PolicyDB.new 3 7 bAB (some 1)).1 ∧
    CanonDB (grant PolicyDB.new 3 7 bAB (some 1)).1 ∧
    (is_granted (grant PolicyDB.new 3 7 bAB (some 1)).1 4 7 bAB).2 = true ∧
    (is_granted (revoke (grant PolicyDB.new 3 7 bAB (some 1)).1 4 7 bAB) 4 7 bAB).2
      = false :=
  ⟨by decide, by decide, by decide,
    c6_revoke_never_granted (grant PolicyDB.new 3 7 bAB (some 1)).1 7 bAB 4 4
      (by decide) (by decide) (by decide) (by decide) (by decide)⟩

/-- C5 counterexample: `grant(7, "a.b", Some 0)` at kernel time 0 succeeds
with `granted_at = 0` and finite duration `d = 0`, yet after the clock
advances to 5 (past `granted_at + d = 0`) `is_granted` still returns true —
the store records `expires_at = 0`, which `is_granted` treats as permanent,
so the claim fails at this input without any revoke ever happening. -/
theorem c5_counterexample :
    (grant PolicyDB.new 0 7 bAB (some 0)).2 = none ∧
    (is_granted (grant PolicyDB.new 0 7 bAB (some 0)).1 5 7 bAB).2 = true :=
  ⟨by decide, by decide⟩

/-- C5 (amended): after `grant(id, n, Some d)` succeeds, whenever the stored
expiry `granted_at + 1000·d` (the duration is in seconds, the clock in
milliseconds; u64 wrapping multiply and saturating add) is nonzero,
advancing `now` to or past that expiry makes `is_granted(id, n)` return
false without any explicit revoke. The nonzero proviso excludes the case
`granted_at = 0` with `1000·d ≡ 0 (mod 2^64)`, where the code records a
permanent grant. -/
theorem c5_expiry_after_grant (db : PolicyDB) (app : Nat) (cap : List Nat)
    (d t t' : Nat) (hi : InvDB db) (hc : CanonDB db) (h0 : 0 ∉ cap)
    (hpos : 0 < cap.length) (hlen : cap.length ≤ 31)
    (hok : (grant db t app cap (some d)).2 = none)
    (hE : grantExpires t (some d) ≠ 0)
    (ht' : grantExpires t (some d) ≤ t') :
    (is_granted (grant db t app cap (some d)).1 t' app cap).2 = false :=
  grant_not_granted_after hc hi.2 h0 hlen hok hE ht'

/-- Witness for C5: grant at time 3 for 1 second; the expiry is 1003 and a
query at 1003 reports not granted. -/
theorem c5_witness :
    InvDB PolicyDB.new ∧ CanonDB PolicyDB.new ∧
    (grant PolicyDB.new 3 7 bAB (some 1)).2 = none ∧
    grantExpires 3 (some 1) ≠ 0 ∧ grantExpires 3 (some 1) ≤ 1003 ∧
    (is_granted (grant PolicyDB.new 3 7 bAB (some 1)).1 1003 7 bAB).2 = false :=
  ⟨by decide, by decide, by decide, by decide, by decide,
    c5_expiry_after_grant PolicyDB.new 7 bAB 1 3 1003 (by decide) (by decide)
      (by decide) (by decide) (by decide) (by decide) (by decide) (by decide)⟩

/-- C4: evaluation of the code at the failing input. The Critical default
duration is 0; an approved Critical grant recorded at kernel time 0 (the
genesis clock stub always reports 0) stores `expires_at = 0`, which the
store treats as a permanent grant: much later queries still find it
currently granted, no consume-on-delegation tombstoning exists anywhere in
the sources, so the grant is neither single-use nor tombstoned. -/
theorem c4_critical_grant_permanent_eval :
    RiskLevel.default_duration RiskLevel.Critical = 0 ∧
    (grant PolicyDB.new 0 9 bSystemRestore
      (some (RiskLevel.default_duration RiskLevel.Critical))).2 = none ∧
    (is_granted (grant PolicyDB.new 0 9 bSystemRestore
        (some (RiskLevel.default_duration RiskLevel.Critical))).1
      999999999 9 bSystemRestore).2 = true :=
  ⟨rfl, by decide, by decide⟩

/-- C3: evaluation of the code at the failing input. "system.restore" is
classified Critical, but `require_hardware_presence` discards the
attestation result and returns true, so with the attestation reporting
absent the consent prompt is still triggered and the reply is not Denied
(the run proceeds to grant and delegation, which fails with Invalid). -/
theorem c3_attestation_ignored_eval :
    assess_risk bSystemRestore = RiskLevel.Critical ∧
    require_hardware_presence false = true ∧
    (handle_capability_request kZero false 0 PolicyDB.new 195 bSystemRestore).promptShown
      = true ∧
    (handle_capability_request kZero false 0 PolicyDB.new 195 bSystemRestore).resp
      ≠ Response.Denied :=
  ⟨by decide, rfl, by decide, by decide⟩

/-- A history of `n` audit writes through `PolicyDB::log_denial`: write `i`
(for `i = 0, 1, ..., n-1`, in that order) records a `Deny` event whose
`app_id` field is `i`, so the write order can be read back off the events. -/
def manyDenials (db : PolicyDB) : Nat → PolicyDB
  | 0 => db
  | n + 1 => log_denial (manyDenials db n) n bAB

/-- C8: evaluation of the code at two failing inputs.

First, one audit write on a fresh store: the written event sits at ring
index 0 and `audit_head` is 1, but `get_recent_events 1` returns the last
slot of the backing array — the untouched blank initializer — because the
implementation computes `audit_log[len - count ..]` and never consults
`audit_head`; the returned slice is not the one most recently written
event.

Second, a history of 65 writes, which wraps the 64-slot ring: the most
recent write (the event with `app_id = 64`) has overwritten ring index 0
and `audit_head` is back to 1, yet `get_recent_events 1` returns the slot
at index 63, which holds the previous write (`app_id = 63`) — again not
the most recently written event, so the claim fails both before and after
the ring wraps. -/
theorem c8_recent_events_eval :
    ((log_denial PolicyDB.new 7 bCameraUse).audit_head = 1 ∧
     (log_denial PolicyDB.new 7 bCameraUse).audit_log.getD 0 blankAuditEvent =
       (⟨0, 7, AuditAction.Deny, canon bCameraUse, false⟩ : AuditEvent) ∧
     get_recent_events (log_denial PolicyDB.new 7 bCameraUse) 1 = [blankAuditEvent] ∧
     blankAuditEvent ≠ (⟨0, 7, AuditAction.Deny, canon bCameraUse, false⟩ : AuditEvent)) ∧
    ((manyDenials PolicyDB.new 65).audit_head = 1 ∧
     (manyDenials PolicyDB.new 65).audit_log.getD 0 blankAuditEvent =
       (⟨0, 64, AuditAction.Deny, canon bAB, false⟩ : AuditEvent) ∧
     get_recent_events (manyDenials PolicyDB.new 65) 1 =
       [(⟨0, 63, AuditAction.Deny, canon bAB, false⟩ : AuditEvent)] ∧
     (⟨0, 63, AuditAction.Deny, canon bAB, false⟩ : AuditEvent) ≠
       (⟨0, 64, AuditAction.Deny, canon bAB, false⟩ : AuditEvent)) :=
  ⟨⟨by decide, by decide, by decide, by decide⟩,
   ⟨by decide, by decide, by decide, by decide⟩⟩

/-- C1 counterexample: on the empty store, a Capability request by identity
0xA1 (161) for the unknown name "foo.bar" returns Error(Invalid) as
claimed, but the store afterwards does contain an AppEntry created for that
identity, holding a (tombstoned) Grant record for that name — the request
did create a grant-store entry. -/
theorem c1_counterexample :
    resolve_system_capability bFooBar = Except.error Error.Invalid ∧
    (handle_capability_request kZero true 0 PolicyDB.new 161 bFooBar).resp =
      Response.Error Error.Invalid ∧
    findApp (handle_capability_request kZero true 0 PolicyDB.new 161 bFooBar).db.apps 161 =
      some ⟨161, [⟨canon bFooBar, 0, 300000, false⟩]⟩ :=
  ⟨rfl, by decide, by decide⟩

/-- C1 (amended): a Capability request whose Clear-Name the resolver rejects
with Invalid issues no kernel operation and returns Error(Invalid) — or
Error(NoMem) when the grant store is exhausted. An AppEntry and a Grant
record may be created, but the consent-backed grant is rolled back
(tombstoned) when delegation fails, so a name not granted before the
request is still not granted after it (the clock being monotone). Stated
over stores satisfying the documented invariants, for null-free Clear-Names
of 1 to 31 bytes. -/
theorem c1_unknown_name_rollback (k : KernelOp → Int) (attest : Bool)
    (db : PolicyDB) (app : Nat) (cap : List Nat) (t t' : Nat)
    (hi : InvDB db) (hc : CanonDB db)
    (hres : resolve_system_capability cap = Except.error Error.Invalid)
    (h0 : 0 ∉ cap) (hpos : 0 < cap.length) (hlen : cap.length ≤ 31)
    (hle : t ≤ t') :
    (handle_capability_request k attest t db app cap).kops = [] ∧
    ((handle_capability_request k attest t db app cap).resp =
        Response.Error Error.Invalid ∨
     (handle_capability_request k attest t db app cap).resp =
        Response.Error Error.NoMem) ∧
    ((is_granted db t app cap).2 = false →
      (is_granted (handle_capability_request k attest t db app cap).db t' app cap).2
        = false) := by
  obtain ⟨hk, hcases⟩ := handler_resolve_error k attest t db app hres
  refine ⟨hk, ?_, ?_⟩
  · rcases hcases with ⟨_, hr, _⟩ | ⟨_, ⟨e2, hg, hr, _⟩ | ⟨_, hr, _⟩⟩
    · exact Or.inl hr
    · have he2 := (grant_fail_apps hg).2
      subst he2
      exact Or.inr hr
    · exact Or.inl hr
  · intro hbefore
    rcases hcases with ⟨hb, _, _⟩ | ⟨_, ⟨e2, hg, _, hdb⟩ | ⟨hg, _, hdb⟩⟩
    · rw [hbefore] at hb
      cases hb
    · rw [hdb, is_granted_snd]
      have ha1 : (grant (is_granted db t app cap).1 t app cap
          (some (assess_risk cap).default_duration)).1.apps = db.apps := by
        rw [(grant_fail_apps hg).1, is_granted_apps]
      rw [ha1]
      have hbef2 : grantedB db.apps t app cap = false := by
        rw [← is_granted_snd]
        exact hbefore
      exact grantedB_mono hbef2 hle
    · rw [hdb]
      have hiv1 : InvDB (is_granted db t app cap).1 :=
        InvDB_of_apps_eq (is_granted_apps db t app cap) hi
      have hcv1 : CanonDB (is_granted db t app cap).1 :=
        CanonDB_of_apps_eq (is_granted_apps db t app cap) hc
      have hiv2 := grant_inv t app cap (some (assess_risk cap).default_duration) hiv1
      have hcv2 := grant_canon t app (some (assess_risk cap).default_duration) hcv1 h0
      exact revoke_not_granted hcv2 hiv2.2 h0 hlen t t'

/-- Witness for the amended C1 at the counterexample input. -/
theorem c1_witness :
    InvDB PolicyDB.new ∧ CanonDB PolicyDB.new ∧
    resolve_system_capability bFooBar = Except.error Error.Invalid ∧
    ((handle_capability_request kZero true 0 PolicyDB.new 161 bFooBar).kops = [] ∧
     ((handle_capability_request kZero true 0 PolicyDB.new 161 bFooBar).resp =
         Response.Error Error.Invalid ∨
      (handle_capability_request kZero true 0 PolicyDB.new 161 bFooBar).resp =
         Response.Error Error.NoMem) ∧
     ((is_granted PolicyDB.new 0 161 bFooBar).2 = false →
       (is_granted (handle_capability_request kZero true 0 PolicyDB.new 161 bFooBar).db
         0 161 bFooBar).2 = false)) :=
  ⟨by decide, by decide, rfl,
    c1_unknown_name_rollback kZero true PolicyDB.new 161 bFooBar 0 0 (by decide)
      (by decide) rfl (by decide) (by decide) (by decide) (by decide)⟩

/-- A store whose 128 slots are all taken by other identities, exhausting
the per-process bound. -/
def dbFull : PolicyDB :=
  ⟨(List.range MAX_APPS).map (fun i => some ⟨1000 + i, []⟩), 0,
    List.replicate 64 blankAuditEvent, 0⟩

/-- C2 counterexample: with the grant store exhausted by 128 other
identities, a Capability request for the forbidden name network.inbound
(under approving consent) returns Error(NoMem), not Error(AccessDenied) —
the store write fails before name resolution is ever consulted. -/
theorem c2_counterexample :
    (handle_capability_request kZero true 0 dbFull 5 bNetworkInbound).resp =
      Response.Error Error.NoMem ∧
    (handle_capability_request kZero true 0 dbFull 5 bNetworkInbound).resp ≠
      Response.Error Error.AccessDenied :=
  ⟨by decide, by decide⟩

/-- C2 (amended): for the forbidden Clear-Names network.inbound and
files.system.write, a Capability request issues no kernel operation — no
capability is ever transferred into the requesting app table — and
returns Error(AccessDenied) even though consent approves (genesis consent
always approves), except that a store exhausted at the grant step returns
Error(NoMem) instead; whenever the consent-backed grant can be recorded,
the reply is exactly Error(AccessDenied). -/
theorem c2_forbidden_rejected (k : KernelOp → Int) (attest : Bool) (t : Nat)
    (db : PolicyDB) (app : Nat) (cap : List Nat)
    (hcap : cap = bNetworkInbound ∨ cap = bFilesSystemWrite) :
    (handle_capability_request k attest t db app cap).kops = [] ∧
    ((handle_capability_request k attest t db app cap).resp =
        Response.Error Error.AccessDenied ∨
     (handle_capability_request k attest t db app cap).resp =
        Response.Error Error.NoMem) ∧
    ((grant db t app cap (some (assess_risk cap).default_duration)).2 = none →
      (handle_capability_request k attest t db app cap).resp =
        Response.Error Error.AccessDenied) := by
  have hres : resolve_system_capability cap = Except.error Error.AccessDenied := by
    rcases hcap with rfl | rfl <;> rfl
  obtain ⟨hk, hcases⟩ := handler_resolve_error k attest t db app hres
  refine ⟨hk, ?_, ?_⟩
  · rcases hcases with ⟨_, hr, _⟩ | ⟨_, ⟨e2, hg, hr, _⟩ | ⟨_, hr, _⟩⟩
    · exact Or.inl hr
    · have he2 := (grant_fail_apps hg).2
      subst he2
      exact Or.inr hr
    · exact Or.inl hr
  · intro hgnone
    rcases hcases with ⟨_, hr, _⟩ | ⟨_, ⟨e2, hg, hr, _⟩ | ⟨_, hr, _⟩⟩
    · exact hr
    · exfalso
      have heq := grant_snd_eq app cap t t
        (some (assess_risk cap).default_duration)
        (some (assess_risk cap).default_duration) (is_granted_apps db t app cap)
      rw [heq, hgnone] at hg
      cases hg
    · exact hr

/-- Witness for the amended C2: network.inbound on the empty store. -/
theorem c2_witness :
    (bNetworkInbound = bNetworkInbound ∨ bNetworkInbound = bFilesSystemWrite) ∧
    ((handle_capability_request kZero true 0 PolicyDB.new 5 bNetworkInbound).kops = [] ∧
     ((handle_capability_request kZero true 0 PolicyDB.new 5 bNetworkInbound).resp =
         Response.Error Error.AccessDenied ∨
      (handle_capability_request kZero true 0 PolicyDB.new 5 bNetworkInbound).resp =
         Response.Error Error.NoMem) ∧
     ((grant PolicyDB.new 0 5 bNetworkInbound
         (some (assess_risk bNetworkInbound).default_duration)).2 = none →
       (handle_capability_request kZero true 0 PolicyDB.new 5 bNetworkInbound).resp =
         Response.Error Error.AccessDenied)) :=
  ⟨Or.inl rfl,
    c2_forbidden_rejected kZero true 0 PolicyDB.new 5 bNetworkInbound (Or.inl rfl)⟩

/-- C10: the kernel operation issued by `revoke_capability` does not depend
on the Clear-Name — for any two names the identical `cap_revoke` on the
single fixed slot APP_DELEGATION_SLOT (5) of the app capability table is
issued — and every `cap_transfer` that `delegate_capability` issues targets
that same fixed slot of the same app CNode, so a delegation overwrites
whatever capability occupies the slot and revoking any name revokes the
current occupant. -/
theorem c10_fixed_delegation_slot (k : KernelOp → Int) (app : Nat)
    (n1 n2 : List Nat) (src dc ds : Nat) (r : Rights)
    (hmem : KernelOp.capTransfer src dc ds r ∈ (delegate_capability k app n1).2) :
    APP_DELEGATION_SLOT = 5 ∧
    (revoke_capability k app n1).2 = [KernelOp.capRevoke app APP_DELEGATION_SLOT] ∧
    (revoke_capability k app n1).2 = (revoke_capability k app n2).2 ∧
    ds = APP_DELEGATION_SLOT ∧ dc = app := by
  have hrev : ∀ n : List Nat,
      (revoke_capability k app n).2 = [KernelOp.capRevoke app APP_DELEGATION_SLOT] := by
    intro n
    unfold revoke_capability
    dsimp only
    split <;> rfl
  refine ⟨rfl, hrev n1, (hrev n1).trans (hrev n2).symm, ?_⟩
  unfold delegate_capability at hmem
  cases hres : resolve_system_capability n1 with
  | error e =>
      rw [hres] at hmem
      simp at hmem
  | ok srcSlot =>
      rw [hres] at hmem
      dsimp only at hmem
      split at hmem
      · split at hmem
        · simp at hmem
        · split at hmem <;>
          · simp only [List.mem_cons, List.mem_singleton, List.not_mem_nil,
              or_false] at hmem
            rcases hmem with hmem | hmem
            · cases hmem
            · injection hmem with h1 h2 h3 h4
              exact ⟨h3, h2⟩
      · split at hmem <;>
        · simp only [List.mem_singleton] at hmem
          injection hmem with h1 h2 h3 h4
          exact ⟨h3, h2⟩

/-- Witness for C10: a files name (mint plus transfer) against an audio
name, with the all-success kernel oracle. -/
theorem c10_witness :
    (KernelOp.capTransfer 0 3 APP_DELEGATION_SLOT ⟨true, false, false, false⟩ ∈
      (delegate_capability kZero 3 bFilesHomeRead).2) ∧
    (APP_DELEGATION_SLOT = 5 ∧
     (revoke_capability kZero 3 bFilesHomeRead).2 =
       [KernelOp.capRevoke 3 APP_DELEGATION_SLOT] ∧
     (revoke_capability kZero 3 bFilesHomeRead).2 =
       (revoke_capability kZero 3 bAudioIn).2 ∧
     APP_DELEGATION_SLOT = APP_DELEGATION_SLOT ∧ (3 : Nat) = 3) :=
  ⟨by decide,
    c10_fixed_delegation_slot kZero 3 bFilesHomeRead bAudioIn 0 3
      APP_DELEGATION_SLOT ⟨true, false, false, false⟩ (by decide)⟩

end Kozo
